import Mathlib

/-!
# THttpSocket: request framing, slot registry and response writer

A shallow embedding of `src/src/thttpsocket.cpp` and `src/src/thttpsocket.h`.

* Byte arrays (`QByteArray`) are lists of byte codes.
* The member variables of `THttpSocket` are the fields of a structure; every member
  function takes the socket and returns the updated socket next to its return value.
* A C++ exception is a value of `Exception`; a function that can throw returns the socket
  as it stands when the exception leaves the function, together with an `Outcome`.
* Operating-system results (temporary file, poll, send, recv, clock readings) are inputs of
  the model; a loop over such results runs over a finite script of them.
* `qint64` values are integers; sums of buffer lengths stay far below `2 ^ 63`, the
  one product of a configured value (`systemLimitBodyBytes`) is wrapped explicitly.
-/

namespace THttp

/-! ## Byte arrays -/

/-- A byte, by its code. -/
abbrev Byte := Nat

/-- The Qt byte array, as the list of its bytes. -/
abbrev QByteArray := List Byte

/-- The bytes of a string literal. -/
def bytes (s : String) : QByteArray := s.toList.map Char.toNat

/-- Modelled from the spec: the header-terminating delimiter `Tf::CRLFCRLF` (declared in
`tfnamespace.h`, which is not in the tree), the blank-line sequence `\r\n\r\n`. -/
def CRLFCRLF : QByteArray := [13, 10, 13, 10]

/-- Offset of the first occurrence of `pat` in a byte array, if there is one. -/
def findFirst (pat : QByteArray) : QByteArray → Option Nat
  | [] => if pat.isPrefixOf [] then some 0 else none
  | b :: bs => if pat.isPrefixOf (b :: bs) then some 0 else (findFirst pat bs).map (· + 1)

/-- The Qt search `QByteArray::indexOf`: the offset of the first occurrence, `-1` if none. -/
def indexOf (buf pat : QByteArray) : Int :=
  match findFirst pat buf with
  | some i => (i : Int)
  | none => -1

/-- The C `isspace` test used by `QByteArray::trimmed`. -/
def isSpace (b : Byte) : Bool :=
  b == 9 || b == 10 || b == 11 || b == 12 || b == 13 || b == 32

/-- The Qt `QByteArray::trimmed`: whitespace removed from both ends. -/
def trimmed (a : QByteArray) : QByteArray :=
  ((a.dropWhile isSpace).reverse.dropWhile isSpace).reverse

/-- The Qt `QByteArray::startsWith`. -/
def startsWith (a pre : QByteArray) : Bool := pre.isPrefixOf a

/-- In `QByteArray::mid(pos)` form: the bytes from offset `pos` on. -/
def mid (a : QByteArray) (pos : Int) : QByteArray := a.drop pos.toNat

/-! ## Constants of thttpsocket.cpp -/

/-- The spill threshold `READ_THRESHOLD_LENGTH`, in bytes. -/
def READ_THRESHOLD_LENGTH : Int := 2 * 1024 * 1024

/-- The largest size requested from one send, `WRITE_LENGTH`. -/
def WRITE_LENGTH : Int := 1408

/-- The chunk size for streamed bodies, `WRITE_BUFFER_LENGTH`. -/
def WRITE_BUFFER_LENGTH : Int := WRITE_LENGTH * 512

/-- The receive buffer size `RECV_BUF_SIZE`. -/
def RECV_BUF_SIZE : Int := 64 * 1024

/-- Two's-complement wrap of an integer into the `qint64` range. -/
def wrap64 (x : Int) : Int := (x + 2 ^ 63) % 2 ^ 64 - 2 ^ 63

/-- The function-local constant `systemLimitBodyBytes` of `waitForReadyReadRequest`: twice
the configured `LimitRequestBody` value (`0` when the setting is absent). -/
def systemLimitBodyBytes (limitRequestBody : Int) : Int := wrap64 (limitRequestBody * 2)

/-- Modelled from the spec: the status code `Tf::RequestEntityTooLarge` (declared in
`tfnamespace.h`, which is not in the tree), the entity-too-large error. -/
def RequestEntityTooLarge : Nat := 413

/-! ## Collaborators -/

/-- What `waitForReadyReadRequest` reads from a `THttpRequestHeader` object: the values of
`contentLength()` (an integer, compared as such with the limit and the threshold) and of
`contentType()`. -/
structure THttpRequestHeader where
  contentLength : Int
  contentType : QByteArray
deriving DecidableEq

/-- The constructor `THttpRequestHeader(const QByteArray &)`, a collaborator whose code is
not in the tree: it is a parameter of the model. -/
abbrev HeaderCtor := QByteArray → THttpRequestHeader

/-- Exceptions thrown by the socket code. -/
inductive Exception
  | ClientErrorException (statusCode : Nat)
  | RuntimeException (msg : String)
deriving DecidableEq

/-- How a call of `waitForReadyReadRequest` ends: it returns a value or throws. -/
inductive Outcome
  | returned (value : Bool)
  | threw (e : Exception)
deriving DecidableEq

/-- The temporary file `_fileBuffer`: whether it is open and the bytes it holds. -/
structure TTemporaryFile where
  isOpen : Bool
  data : QByteArray
deriving DecidableEq

/-- Results of the operating system for the temporary file: whether `open` and `write`
succeed. -/
structure FileSystem where
  openOk : Bool
  writeOk : Bool
deriving DecidableEq

/-- The connection state, `QAbstractSocket::SocketState` as far as the socket uses it. -/
inductive SocketState
  | UnconnectedState
  | ConnectedState
  | ClosingState
deriving DecidableEq

/-- The member variables of `THttpSocket`. -/
structure THttpSocket where
  _sid : Int
  _socketDescriptor : Int
  _state : SocketState
  _lengthToRead : Int
  _readBuffer : QByteArray
  _fileBuffer : TTemporaryFile
  _idleElapsed : Int
deriving DecidableEq

/-- A freshly constructed socket (member initialisers of thttpsocket.h), with id `sid`. -/
def THttpSocket.fresh (sid : Int) : THttpSocket :=
  ⟨sid, 0, SocketState.UnconnectedState, -1, [], ⟨false, []⟩, 0⟩

/-- The inline member `canReadRequest`. -/
def canReadRequest (s : THttpSocket) : Bool := s._lengthToRead == 0

/-! ## Inbound assembly: waitForReadyReadRequest -/

/-- The body of `waitForReadyReadRequest` after `auto buf = readRawData(msecs)`: `buf` is the
chunk that `readRawData` returned. -/
def waitForReadyReadRequest (mkHeader : HeaderCtor) (fs : FileSystem) (limitRequestBody : Int)
    (s : THttpSocket) (buf : QByteArray) : THttpSocket × Outcome :=
  if buf ≠ [] then
    if s._lengthToRead > 0 then
      -- Writes to buffer
      if s._fileBuffer.isOpen then
        if fs.writeOk then
          let s1 := { s with _fileBuffer := { s._fileBuffer with data := s._fileBuffer.data ++ buf } }
          let s2 := { s1 with _lengthToRead := max (s1._lengthToRead - buf.length) 0 }
          (s2, Outcome.returned (canReadRequest s2))
        else
          (s, Outcome.threw (Exception.RuntimeException "write error: "))
      else
        let s1 := { s with _readBuffer := s._readBuffer ++ buf }
        let s2 := { s1 with _lengthToRead := max (s1._lengthToRead - buf.length) 0 }
        (s2, Outcome.returned (canReadRequest s2))
    else if s._lengthToRead < 0 then
      let s1 := { s with _readBuffer := s._readBuffer ++ buf }
      let idx := indexOf s1._readBuffer CRLFCRLF
      if idx > 0 then
        let header := mkHeader s1._readBuffer
        if systemLimitBodyBytes limitRequestBody > 0
            ∧ header.contentLength > systemLimitBodyBytes limitRequestBody then
          (s1, Outcome.threw (Exception.ClientErrorException RequestEntityTooLarge))
        else
          let s2 := { s1 with
            _lengthToRead := max (idx + 4 + header.contentLength - s1._readBuffer.length) 0 }
          if header.contentLength > READ_THRESHOLD_LENGTH
              ∨ (header.contentLength > 0
                  ∧ startsWith (trimmed header.contentType) (bytes "multipart/form-data")) then
            -- Writes to file buffer
            if fs.openOk then
              let s3 := { s2 with _fileBuffer := { s2._fileBuffer with isOpen := true } }
              if (s3._readBuffer.length : Int) > idx + 4 then
                if fs.writeOk then
                  let s4 := { s3 with _fileBuffer :=
                    { s3._fileBuffer with data := s3._fileBuffer.data ++ mid s3._readBuffer (idx + 4) } }
                  (s4, Outcome.returned (canReadRequest s4))
                else
                  (s3, Outcome.threw (Exception.RuntimeException "write error: "))
              else
                (s3, Outcome.returned (canReadRequest s3))
            else
              (s2, Outcome.threw (Exception.RuntimeException "temporary file open error: "))
          else
            (s2, Outcome.returned (canReadRequest s2))
      else
        (s1, Outcome.returned (canReadRequest s1))
    else
      -- do nothing
      (s, Outcome.returned (canReadRequest s))
  else
    (s, Outcome.returned (canReadRequest s))

/-- Successive calls of `waitForReadyReadRequest`, one per chunk returned by `readRawData`:
the socket after the last call and the result of every call, in order. -/
def feedAll (mkHeader : HeaderCtor) (fs : FileSystem) (limitRequestBody : Int) :
    THttpSocket → List QByteArray → THttpSocket × List Outcome
  | s, [] => (s, [])
  | s, c :: cs =>
    let r := waitForReadyReadRequest mkHeader fs limitRequestBody s c
    let rest := feedAll mkHeader fs limitRequestBody r.1 cs
    (rest.1, r.2 :: rest.2)

/-! ## Hand-off: read -/

/-- A request record, by the material it is built from: `fromFile` is the constructor call
`THttpRequest(_readBuffer, _fileBuffer.fileName(), peerAddress())` (the byte array handed
over and the contents of the named file), `fromMemory` a record cut out of the in-memory
buffer (header block with its delimiter, then the body). -/
inductive THttpRequest
  | fromFile (byteArray : QByteArray) (fileData : QByteArray)
  | fromMemory (header : QByteArray) (body : QByteArray)
deriving DecidableEq

/-- The splitting loop of `generate`: at most `fuel` records are cut from the front of
the buffer, each a header block through its delimiter followed by the declared number of
body bytes; the loop stops at the first incomplete request. -/
def generateLoop (mkHeader : HeaderCtor) : Nat → QByteArray → List THttpRequest
  | 0, _ => []
  | fuel + 1, buf =>
    let idx := indexOf buf CRLFCRLF
    if idx ≥ 0 then
      let contlen := max (mkHeader buf).contentLength 0
      if idx + 4 + contlen ≤ buf.length then
        THttpRequest.fromMemory (buf.take (idx + 4).toNat) ((mid buf (idx + 4)).take contlen.toNat)
          :: generateLoop mkHeader fuel (mid buf (idx + 4 + contlen))
      else []
    else []

/-- Modelled from the spec: the splitting collaborator `THttpRequest::generate`, whose body
is not in the tree. It splits the single in-memory buffer into however many complete
requests it contains; all are returned and the buffer is then cleared. The result is the
list of records and the buffer as `generate` leaves it. -/
def generate (mkHeader : HeaderCtor) (byteArray : QByteArray) : List THttpRequest × QByteArray :=
  (generateLoop mkHeader byteArray.length byteArray, [])

/-- The member `read`: the records handed over and the socket afterwards. -/
def read (mkHeader : HeaderCtor) (s : THttpSocket) : List THttpRequest × THttpSocket :=
  if canReadRequest s then
    if s._fileBuffer.isOpen then
      let req := THttpRequest.fromFile s._readBuffer s._fileBuffer.data
      ([req], { s with _readBuffer := [], _fileBuffer := ⟨false, []⟩, _lengthToRead := -1 })
    else
      let r := generate mkHeader s._readBuffer
      (r.1, { s with _readBuffer := r.2, _lengthToRead := -1 })
  else
    ([], s)

/-! ## A concrete header parser -/

/-- The bytes of a buffer before its first header delimiter (all of it if there is none). -/
def headerBlock : QByteArray → QByteArray
  | [] => []
  | b :: bs => if CRLFCRLF.isPrefixOf (b :: bs) then [] else b :: headerBlock bs

/-- The lines of a header block, split at line feeds. -/
def splitLines (bs : QByteArray) : List QByteArray :=
  bs.foldr (fun b acc =>
    if b = 10 then [] :: acc
    else match acc with
      | [] => [[b]]
      | l :: ls => (b :: l) :: ls) [[]]

/-- ASCII lower case of a byte. -/
def toLower (b : Byte) : Byte := if 65 ≤ b ∧ b ≤ 90 then b + 32 else b

/-- The trimmed value of a header line `name: value`, if the line carries the field `name`
(compared without regard to case). -/
def fieldValue (name : QByteArray) (line : QByteArray) : Option QByteArray :=
  match line.dropWhile (· ≠ 58) with
  | [] => none
  | _ :: v =>
    if (trimmed (line.takeWhile (· ≠ 58))).map toLower = name then some (trimmed v) else none

/-- The value of the first header field called `name`, empty if there is none. -/
def rawHeader (name : QByteArray) (buf : QByteArray) : QByteArray :=
  ((splitLines (headerBlock buf)).findSome? (fieldValue name)).getD []

/-- Decimal value of a byte array of digits, `0` for anything else. -/
def toLongLong (a : QByteArray) : Int :=
  if a ≠ [] ∧ a.all (fun b => 48 ≤ b ∧ b ≤ 57) then
    ((a.foldl (fun acc b => acc * 10 + (b - 48)) 0 : Nat) : Int)
  else 0

/-- Modelled from the spec: a header-parsing collaborator `parseHeader(bytes)`, standing in
for the `THttpRequestHeader` constructor, which is not in the tree. It reads the
`Content-Length` and `Content-Type` fields of the header block that ends at the first
delimiter. -/
def parseHeader : HeaderCtor := fun buf =>
  ⟨toLongLong (rawHeader (bytes "content-length") buf), rawHeader (bytes "content-type") buf⟩


/-! ## Vocabulary of the statements -/

/-- A header block: at least one byte followed by the delimiter, which occurs nowhere
earlier in the block. -/
def IsHeader (H : QByteArray) : Prop :=
  4 < H.length ∧ findFirst CRLFCRLF H = some (H.length - 4)

instance (H : QByteArray) : Decidable (IsHeader H) := by
  unfold IsHeader; infer_instance

/-- The condition under which `waitForReadyReadRequest` opens the temporary file. -/

def usesSpillFile (h : THttpRequestHeader) : Prop :=
  h.contentLength > READ_THRESHOLD_LENGTH
    ∨ (h.contentLength > 0 ∧ startsWith (trimmed h.contentType) (bytes "multipart/form-data"))

instance (h : THttpRequestHeader) : Decidable (usesSpillFile h) := by
  unfold usesSpillFile; infer_instance

/-- The limit test of `waitForReadyReadRequest` lets the declared length `L` pass. -/

def passesLimit (limitRequestBody L : Int) : Prop :=
  ¬ (systemLimitBodyBytes limitRequestBody > 0 ∧ L > systemLimitBodyBytes limitRequestBody)

instance (m L : Int) : Decidable (passesLimit m L) := by
  unfold passesLimit; infer_instance

/-- The results of `n` successive calls of which only the last reports a complete
request. -/
def readyOnLast : Nat → List Outcome
  | 0 => []
  | 1 => [Outcome.returned true]
  | n + 2 => Outcome.returned false :: readyOnLast (n + 1)

/-- The bytes of the leading chunks up to and including the chunk that delivers the
`n`-th byte. -/

def upToHeader : Nat → List QByteArray → QByteArray
  | _, [] => []
  | n, c :: cs => if n ≤ c.length then c else c ++ upToHeader (n - c.length) cs

/-- A well-formed request for the header collaborator `mkHeader`: `H` is its header block
and `B` its body, and for every buffer that begins with `H` the collaborator reports the
declared content length `len(B)` and the content type `T`. -/
structure WellFormed (mkHeader : HeaderCtor) (H B T : QByteArray) : Prop where
  header : IsHeader H
  declared : ∀ X : QByteArray, mkHeader (H ++ X) = ⟨B.length, T⟩

/-- The assembly state of a connection that holds nothing: awaiting a header
(`_lengthToRead = -1`), empty read buffer, temporary file closed and empty. -/
def Idle (s : THttpSocket) : Prop :=
  s._lengthToRead = -1 ∧ s._readBuffer = [] ∧ s._fileBuffer = ⟨false, []⟩

instance (s : THttpSocket) : Decidable (Idle s) := by
  unfold Idle; infer_instance

/-- A chunking of the byte array `R`: non-empty chunks whose concatenation is `R`. -/
def IsChunking (chunks : List QByteArray) (R : QByteArray) : Prop :=
  (∀ c ∈ chunks, c ≠ []) ∧ chunks.flatten = R

instance (chunks : List QByteArray) (R : QByteArray) : Decidable (IsChunking chunks R) := by
  unfold IsChunking; infer_instance

/-- The header collaborator reads the header block only: once a buffer holds a complete
header block, bytes appended to the buffer do not change what the collaborator reports. -/
def ReadsHeaderBlockOnly (mkHeader : HeaderCtor) : Prop :=
  ∀ buf ext : QByteArray, indexOf buf CRLFCRLF > 0 → mkHeader (buf ++ ext) = mkHeader buf

/-- The temporary file holds no bytes while it is closed (true of a fresh socket and kept
by `waitForReadyReadRequest` and `read`). -/
def ClosedFileEmpty (s : THttpSocket) : Prop :=
  s._fileBuffer.isOpen = false → s._fileBuffer.data = []

instance (s : THttpSocket) : Decidable (ClosedFileEmpty s) := by
  unfold ClosedFileEmpty; infer_instance

/-! ## Sample requests -/

/-- Header block of a multipart upload declaring three body bytes. -/
def uploadHeader : QByteArray :=
  bytes "POST /upload HTTP/1.1\r\nContent-Type: multipart/form-data\r\nContent-Length: 3\r\n\r\n"

/-- Header block of a request declaring five body bytes. -/
def postHeader : QByteArray := bytes "POST /p HTTP/1.1\r\nContent-Length: 5\r\n\r\n"

/-- Header block of a request without a body. -/
def getHeader : QByteArray := bytes "GET / HTTP/1.1\r\nHost: x\r\n\r\n"

/-- Header block of a request declaring one byte more than the spill threshold. -/
def largeHeader : QByteArray := bytes "PUT /f HTTP/1.1\r\nContent-Length: 2097153\r\n\r\n"

/-- A body of one byte more than the spill threshold. -/
def largeBody : QByteArray := List.replicate 2097153 120

/-- Header block of a request declaring fifteen body bytes. -/
def fifteenHeader : QByteArray := bytes "POST /p HTTP/1.1\r\nContent-Length: 15\r\n\r\n"

/-! ## Connection slot registry -/

/-- A connection object, by its address (the value of `this`). -/
abbrev Conn := Nat

/-- Number of slots of `socketManager`: `USHRT_MAX + 1`. -/
def SLOT_COUNT : Nat := 65536

/-- The file-scope registry of thttpsocket.cpp: the slot table `socketManager` (indices
below `USHRT_MAX + 1`) and the rotating cursor `point`. -/
structure Registry where
  socketManager : Nat → Option Conn
  point : Nat

/-- The registry at process start: every slot empty, cursor at zero. -/
def Registry.empty : Registry := ⟨fun _ => none, 0⟩

/-- Modelled from the spec: the atomic compare-and-swap `TAtomicPtr::compareExchange`
(tatomicptr.h is not in the tree), applied to slot `sid`: the slot takes `newValue` exactly
when it holds `expected`, and the result says whether it did. -/
def Registry.compareExchange (r : Registry) (sid : Nat) (expected newValue : Option Conn) :
    Bool × Registry :=
  if r.socketManager sid = expected then
    (true, { r with socketManager := fun i => if i = sid then newValue else r.socketManager i })
  else
    (false, r)

/-- Modelled from the spec: the atomic compare-and-swap `TAtomicPtr::compareExchangeStrong`
(tatomicptr.h is not in the tree), applied to slot `sid`. -/
def Registry.compareExchangeStrong (r : Registry) (sid : Nat) (expected newValue : Option Conn) :
    Bool × Registry :=
  if r.socketManager sid = expected then
    (true, { r with socketManager := fun i => if i = sid then newValue else r.socketManager i })
  else
    (false, r)

/-- The atomic `point.fetch_add(1)` on the `ushort` cursor: the value before the addition,
and the registry with the cursor advanced modulo `65536`. -/
def Registry.fetchAdd (r : Registry) : Nat × Registry :=
  (r.point, { r with point := (r.point + 1) % SLOT_COUNT })

/-- One pass of the `do ... while` loop of the constructor: `_sid = point.fetch_add(1)`,
then `socketManager[_sid].compareExchange(nullptr, this)`. The result is `some _sid` when
the exchange succeeded, which ends the loop. -/
def ctorPass (r : Registry) (this : Conn) : Option Nat × Registry :=
  let f := r.fetchAdd
  let x := f.2.compareExchange f.1 none (some this)
  (if x.1 then some f.1 else none, x.2)

/-- Where the slot-claiming loop of the constructor stands: it has left the loop with
`_sid`, or it is still looping. The loop has no other exit. -/
inductive CtorResult
  | constructed (sid : Nat) (r : Registry)
  | looping (r : Registry)

/-- The slot-claiming loop of the constructor `THttpSocket::THttpSocket`, run for at most
`fuel` passes with no other thread touching the registry. -/
def ctorLoop : Nat → Registry → Conn → CtorResult
  | 0, r, _ => CtorResult.looping r
  | fuel + 1, r, this =>
    match ctorPass r this with
    | (some sid, r1) => CtorResult.constructed sid r1
    | (none, r1) => ctorLoop fuel r1 this

/-- The registry step of `THttpSocket::deleteLater` for the object `this` with id `sid`:
`socketManager[_sid].compareExchange(this, nullptr)`. -/
def deleteLater (r : Registry) (this : Conn) (sid : Nat) : Registry :=
  (r.compareExchange sid (some this) none).2

/-- The registry step of the destructor for the object `this` with id `sid`:
`socketManager[_sid].compareExchangeStrong(this, nullptr)`. -/
def destructor (r : Registry) (this : Conn) (sid : Nat) : Registry :=
  (r.compareExchangeStrong sid (some this) none).2

/-- The static member `searchSocket`: `socketManager[sid & 0xffff].load()`; for a
two's-complement `int` the mask is the remainder modulo `65536`. -/
def searchSocket (r : Registry) (sid : Int) : Option Conn :=
  r.socketManager (sid % 65536).toNat

/-- Where a connection object stands in its life: no object at that address; in the
constructor before `fetch_add`; in the constructor between `fetch_add` and the exchange;
constructed and registered under `sid`; after `deleteLater` and before the destructor. -/
inductive Life
  | absent
  | fetching
  | swapping (sid : Nat)
  | live (sid : Nat)
  | released (sid : Nat)
deriving DecidableEq

/-- The registry together with the life of every connection object. -/
structure World where
  registry : Registry
  life : Conn → Life

/-- The world at process start. -/
def World.init : World := ⟨Registry.empty, fun _ => Life.absent⟩

/-- The atomic steps that threads take on the registry. -/
inductive Event
  | ctorFetch (c : Conn)
  | ctorSwap (c : Conn)
  | deleteLater (c : Conn)
  | destroy (c : Conn)
deriving DecidableEq

/-- One atomic step. An event that the connection cannot take in its present life leaves
the world unchanged. -/
def World.step (w : World) : Event → World
  | Event.ctorFetch c =>
    match w.life c with
    | Life.absent | Life.fetching =>
      ⟨w.registry.fetchAdd.2, fun x => if x = c then Life.swapping w.registry.fetchAdd.1 else w.life x⟩
    | _ => w
  | Event.ctorSwap c =>
    match w.life c with
    | Life.swapping sid =>
      let x := w.registry.compareExchange sid none (some c)
      ⟨x.2, fun y => if y = c then (if x.1 then Life.live sid else Life.fetching) else w.life y⟩
    | _ => w
  | Event.deleteLater c =>
    match w.life c with
    | Life.live sid | Life.released sid =>
      ⟨deleteLater w.registry c sid, fun y => if y = c then Life.released sid else w.life y⟩
    | _ => w
  | Event.destroy c =>
    match w.life c with
    | Life.live sid | Life.released sid =>
      ⟨destructor w.registry c sid, fun y => if y = c then Life.absent else w.life y⟩
    | _ => w

/-- The world after a sequence of atomic steps. -/
def World.run (w : World) (events : List Event) : World := events.foldl World.step w

/-- The invariant of the registry: a registered connection is in the slot of its id, a
slot holds only a connection registered under that slot, and ids stay below `65536`. -/
structure World.Inv (w : World) : Prop where
  point_lt : w.registry.point < SLOT_COUNT
  swapping_lt : ∀ c sid, w.life c = Life.swapping sid → sid < SLOT_COUNT
  live_lt : ∀ c sid, w.life c = Life.live sid → sid < SLOT_COUNT
  live_slot : ∀ c sid, w.life c = Life.live sid → w.registry.socketManager sid = some c
  slot_live : ∀ i c, w.registry.socketManager i = some c → w.life c = Life.live i

/-- A registry whose slots are all held: slot `i` by the connection `i`. -/
def fullRegistry : Registry := ⟨fun i => some i, 0⟩

/-! ## Outbound writer -/

/-- The member `abort`. -/
def abort (s : THttpSocket) : THttpSocket :=
  if s._socketDescriptor > 0 then
    { s with _state := SocketState.ClosingState, _socketDescriptor := 0 }
  else
    { s with _state := SocketState.UnconnectedState }

/-- The member `setSocketDescriptor`. -/
def setSocketDescriptor (s : THttpSocket) (socketDescriptor : Int) (socketState : SocketState) :
    THttpSocket :=
  { s with _socketDescriptor := socketDescriptor, _state := socketState }

/-- What the operating system answers in one pass of the send loop: the result of
`tf_poll_send` and, used only when the poll reports readiness, the result of `tf_write`. -/
structure SendPass where
  pollResult : Int
  written : Int
deriving DecidableEq

/-- How a write call ends: its return value, the socket afterwards, the unused part of the
script of operating-system answers, the bytes accepted by the sends of the call in order,
and the length requested from each send. -/
structure WriteResult where
  value : Int
  sock : THttpSocket
  rest : List SendPass
  wire : QByteArray
  requested : List Int
deriving DecidableEq

/-- The `for (;;)` loop of `writeRawData(const char *, qint64)` with the statements that
follow it, one scripted pass per iteration; `now` is the clock reading stored in
`_idleElapsed`. The result is `none` when the script ends while the loop is running. -/
def writeLoop (now : Int) (data : QByteArray) (size : Int) :
    List SendPass → THttpSocket → Int → QByteArray → List Int → Option WriteResult
  | [], _, _, _, _ => none
  | p :: ps, s, total, wire, reqs =>
    if p.pollResult ≤ 0 then
      -- abort(); break;
      some ⟨total, { abort s with _idleElapsed := now }, ps, wire, reqs⟩
    else
      let len := min (size - total) WRITE_LENGTH
      if p.written ≤ 0 then
        some ⟨-1, s, ps, wire, reqs ++ [len]⟩
      else
        let total1 := total + p.written
        let wire1 := wire ++ (mid data total).take p.written.toNat
        if total1 ≥ size then
          some ⟨total1, { s with _idleElapsed := now }, ps, wire1, reqs ++ [len]⟩
        else
          writeLoop now data size ps s total1 wire1 (reqs ++ [len])

/-- The member `writeRawData(const char *data, qint64 size)`; a null `data` pointer is
`none`. -/
def writeRawData (now : Int) (s : THttpSocket) (data : Option QByteArray) (size : Int)
    (script : List SendPass) : Option WriteResult :=
  if s._socketDescriptor ≤ 0 then
    some ⟨-1, s, script, [], []⟩
  else
    match data with
    | none => some ⟨0, s, script, [], []⟩
    | some d =>
      if size = 0 then some ⟨0, s, script, [], []⟩
      else writeLoop now d size script s 0 [] []

/-- The body source of a response, a `QIODevice`: a `QBuffer` with its bytes, or another
device with the results of its successive `read` calls (a call that returns nothing ends
the body). `isOpen` and `openOk` say whether the device is open already and whether
opening it succeeds. -/
inductive QIODevice
  | buffer (isOpen openOk : Bool) (data : QByteArray)
  | stream (isOpen openOk : Bool) (reads : List QByteArray)
deriving DecidableEq

/-- Whether `body && !body->isOpen()` holds and the `open` call then fails. -/
def QIODevice.openFails : QIODevice → Bool
  | QIODevice.buffer isOpen openOk _ => !isOpen && !openOk
  | QIODevice.stream isOpen openOk _ => !isOpen && !openOk

/-- The `while` loop of `write` over a streamed body: each chunk read from the device is
written with `writeRawData`; `total`, `wire` and `reqs` are what has been written before. -/
def writeStream (now : Int) :
    List QByteArray → THttpSocket → Int → List SendPass → QByteArray → List Int →
      Option WriteResult
  | [], s, total, script, wire, reqs => some ⟨total, s, script, wire, reqs⟩
  | c :: cs, s, total, script, wire, reqs =>
    if (c.length : Int) > 0 then
      match writeRawData now s (some c) c.length script with
      | none => none
      | some r =>
        if r.value ≠ c.length then
          some ⟨-1, r.sock, r.rest, wire ++ r.wire, reqs ++ r.requested⟩
        else
          writeStream now cs r.sock (total + c.length) r.rest (wire ++ r.wire)
            (reqs ++ r.requested)
    else
      some ⟨total, s, script, wire, reqs⟩

/-- The member `write(header, body)`: `hdata` is `header->toByteArray()`, a null `body`
pointer is `none`. -/
def write (now : Int) (s : THttpSocket) (hdata : QByteArray) (body : Option QIODevice)
    (script : List SendPass) : Option WriteResult :=
  if (match body with
      | none => false
      | some b => b.openFails) then
    some ⟨-1, s, script, [], []⟩
  else
    -- Writes HTTP header
    match writeRawData now s (some hdata) hdata.length script with
    | none => none
    | some r =>
      if r.value < 0 then
        some { r with value := -1 }
      else
        match body with
        | none => some r
        | some (QIODevice.buffer _ _ data) =>
          match writeRawData now r.sock (some data) data.length r.rest with
          | none => none
          | some r2 =>
            if r2.value ≠ data.length then
              some ⟨-1, r2.sock, r2.rest, r.wire ++ r2.wire, r.requested ++ r2.requested⟩
            else
              some ⟨r.value + data.length, r2.sock, r2.rest, r.wire ++ r2.wire,
                r.requested ++ r2.requested⟩
        | some (QIODevice.stream _ _ reads) =>
          writeStream now reads r.sock r.value r.rest r.wire r.requested

/-- A connected socket: descriptor 5 in `ConnectedState`. -/
def connectedSocket : THttpSocket :=
  setSocketDescriptor (THttpSocket.fresh 0) 5 SocketState.ConnectedState

/-- Serialized header of a short response. -/
def responseHeader : QByteArray := bytes "HTTP/1.1 200 OK\r\nContent-Length: 10\r\n\r\n"

/-- Header block of a request declaring ten body bytes. -/
def tenHeader : QByteArray := bytes "POST /p HTTP/1.1\r\nContent-Length: 10\r\n\r\n"

/-- A chunk that begins with the delimiter: two blank lines, then a request without body. -/
def blankLineFirst : QByteArray := bytes "\r\n\r\nGET / HTTP/1.1\r\nHost: x\r\n\r\n"

/-- Header block of a multipart request declaring no body bytes. -/
def emptyUploadHeader : QByteArray :=
  bytes "POST /upload HTTP/1.1\r\nContent-Type: multipart/form-data\r\nContent-Length: 0\r\n\r\n"

/-- Whether a script of operating-system answers lets the send loop of a write of `size`
bytes run without failure from the running count `total` on: in every pass that the loop
takes, the poll is ready and the send reports `k` bytes with `1 ≤ k ≤` the length
requested, which is `min(size - total, WRITE_LENGTH)`. -/
def runsWell (size : Int) : Int → List SendPass → Bool
  | _, [] => true
  | total, p :: ps =>
    decide (p.pollResult > 0) && decide (1 ≤ p.written)
      && decide (p.written ≤ min (size - total) WRITE_LENGTH)
      && (decide (total + p.written ≥ size) || runsWell size (total + p.written) ps)

/-- The part of a script that the send loop leaves unused when no pass fails. -/
def restAfterLoop (size : Int) : Int → List SendPass → List SendPass
  | _, [] => []
  | total, p :: ps =>
    if total + p.written ≥ size then ps else restAfterLoop size (total + p.written) ps

/-- The part of a script that `writeRawData` leaves unused when no pass fails: all of it
for an empty write. -/
def restAfterWrite (size : Int) (script : List SendPass) : List SendPass :=
  if size = 0 then script else restAfterLoop size 0 script

/-- A script serves a write of `size` bytes: nothing is asked of it for an empty write;
otherwise it lets the send loop run without failure and holds at least `size` passes
(every pass sends at least one byte, so the loop takes at most `size` passes). -/
def servesWrite (size : Int) (script : List SendPass) : Prop :=
  size = 0 ∨ (runsWell size 0 script = true ∧ size ≤ script.length)

instance (size : Int) (script : List SendPass) : Decidable (servesWrite size script) := by
  unfold servesWrite; infer_instance

/-! ## Read path: readRawData -/

/-- The `errno` value `EAGAIN`. -/
def EAGAIN : Int := 11

/-- What the operating system answers in one pass of the receive loop: the result of
`tf_recv` with the `errno` it leaves and the bytes it stored, the clock readings taken in
the pass (`now` for the deadline test after a would-block and for `_idleElapsed`, `now2`
for the computation of `timeout`), and the result of the `tf_poll_recv` of the loop
condition, used only when the pass reaches the condition. -/
structure RecvPass where
  len : Int
  error : Int
  received : QByteArray
  now : Int
  now2 : Int
  pollResult : Int
deriving DecidableEq

/-- How a call of `readRawData` ends: the byte array returned, the socket afterwards, the
unused part of the script, the number of `tf_recv` calls made, and the timeout passed to
each `tf_poll_recv` of the loop condition. -/
structure ReadResult where
  buffer : QByteArray
  sock : THttpSocket
  rest : List RecvPass
  recvCalls : Nat
  pollTimeouts : List Int
deriving DecidableEq

/-- The `do ... while (tf_poll_recv(socketDescriptor(), timeout) > 0)` loop of
`readRawData`, one scripted pass per iteration. A `continue` in the body goes to the loop
condition, as does the end of the body. The result is `none` when the script ends while
the loop is running. -/
def recvLoop (msecs startidle : Int) :
    List RecvPass → THttpSocket → Int → Int → QByteArray → Nat → List Int → Option ReadResult
  | [], _, _, _, _, _, _ => none
  | p :: ps, s, total, timeout, buffer, calls, polls =>
    let buflen := RECV_BUF_SIZE - total
    if p.len < 0 then
      if p.error = EAGAIN then
        if p.now - startidle < msecs then
          -- std::this_thread::yield(); continue;
          if p.pollResult > 0 then
            recvLoop msecs startidle ps s total timeout buffer (calls + 1) (polls ++ [timeout])
          else
            some ⟨buffer, s, ps, calls + 1, polls ++ [timeout]⟩
        else
          some ⟨buffer, s, ps, calls + 1, polls⟩
      else
        some ⟨buffer, abort s, ps, calls + 1, polls⟩
    else if p.len = 0 then
      some ⟨buffer, abort s, ps, calls + 1, polls⟩
    else
      let s1 := { s with _idleElapsed := p.now }
      let total1 := total + p.len
      let buffer1 := buffer ++ p.received.take p.len.toNat
      if p.len < buflen ∨ total1 = RECV_BUF_SIZE then
        some ⟨buffer1, s1, ps, calls + 1, polls⟩
      else
        let timeout1 := p.now2 - startidle - msecs
        if timeout1 ≤ 0 then
          some ⟨buffer1, s1, ps, calls + 1, polls⟩
        else if p.pollResult > 0 then
          recvLoop msecs startidle ps s1 total1 timeout1 buffer1 (calls + 1) (polls ++ [timeout1])
        else
          some ⟨buffer1, s1, ps, calls + 1, polls ++ [timeout1]⟩

/-- The member `readRawData(msecs)`: `firstPoll` is the result of the initial
`tf_poll_recv(socketDescriptor(), msecs)` and `startidle` the clock reading taken after
it. -/
def readRawData (msecs : Int) (s : THttpSocket) (firstPoll : Int) (startidle : Int)
    (script : List RecvPass) : Option ReadResult :=
  if firstPoll < 0 then
    some ⟨[], abort s, script, 0, []⟩
  else if firstPoll = 0 then
    -- timeout
    some ⟨[], s, script, 0, []⟩
  else
    recvLoop msecs startidle script s 0 0 [] 0 []

/-! # Theorems -/

/-! ## Facts about the delimiter search -/


theorem findFirst_bound {pat : QByteArray} : ∀ {xs : QByteArray} {i : Nat},
    findFirst pat xs = some i → i + pat.length ≤ xs.length := by
  intro xs
  induction xs with
  | nil =>
    intro i h
    cases pat with
    | nil => simp [findFirst] at h; simp [← h]
    | cons p ps => simp [findFirst, List.isPrefixOf] at h
  | cons b bs ih =>
    intro i h
    unfold findFirst at h
    split at h
    · rename_i hp
      have hle := (List.isPrefixOf_iff_prefix.mp hp).length_le
      simp at h
      subst h
      simpa using hle
    · cases hj : findFirst pat bs with
      | none => simp [hj] at h
      | some j =>
        simp [hj] at h
        have := ih hj
        subst h
        simp
        omega

theorem findFirst_append {pat : QByteArray} : ∀ {xs : QByteArray} {i : Nat} (ys : QByteArray),
    findFirst pat xs = some i → findFirst pat (xs ++ ys) = some i := by
  intro xs
  induction xs with
  | nil =>
    intro i ys h
    cases pat with
    | nil =>
      simp [findFirst] at h
      subst h
      cases ys <;> simp [findFirst, List.isPrefixOf]
    | cons p ps => simp [findFirst, List.isPrefixOf] at h
  | cons b bs ih =>
    intro i ys h
    unfold findFirst at h
    split at h
    · rename_i hp
      have hp2 : pat.isPrefixOf (b :: (bs ++ ys)) = true := by
        rw [List.isPrefixOf_iff_prefix] at hp ⊢
        exact hp.trans (List.prefix_append (b :: bs) ys)
      simp [findFirst, hp2]
      simpa using h
    · rename_i hp
      cases hj : findFirst pat bs with
      | none => simp [hj] at h
      | some j =>
        simp [hj] at h
        have hb := findFirst_bound hj
        have hp2 : ¬ pat.isPrefixOf (b :: (bs ++ ys)) = true := by
          intro hc
          apply hp
          rw [List.isPrefixOf_iff_prefix] at hc ⊢
          exact List.prefix_of_prefix_length_le hc (List.prefix_append (b :: bs) ys)
            (by simp; omega)
        simp [findFirst, hp2, ih ys hj, h]

theorem max_zero_beq (x : Int) : (max x 0 == 0) = decide (x ≤ 0) := by
  rcases le_or_lt x 0 with h | h
  · simp [max_eq_right h, h]
  · have h2 : ¬ x ≤ 0 := by omega
    have h3 : ¬ x = 0 := by omega
    simp [max_eq_left h.le, h2, h3]

theorem indexOf_header_append {H : QByteArray} (hH : IsHeader H) (X : QByteArray) :
    indexOf (H ++ X) CRLFCRLF = (H.length : Int) - 4 := by
  have h := findFirst_append X hH.2
  have h4 := hH.1
  simp only [indexOf, h]
  omega

theorem findFirst_none_of_short {H B p r : QByteArray} (hH : IsHeader H)
    (hsplit : p ++ r = H ++ B) (hlen : p.length < H.length) :
    findFirst CRLFCRLF p = none := by
  cases hp : findFirst CRLFCRLF p with
  | none => rfl
  | some j =>
    exfalso
    have hb := findFirst_bound hp
    have h1 := findFirst_append r hp
    have h2 := findFirst_append B hH.2
    rw [hsplit, h2] at h1
    have h4 := hH.1
    simp [CRLFCRLF] at hb h1
    omega

theorem step_awaiting (mkHeader : HeaderCtor) (fs : FileSystem) (lim : Int)
    {s : THttpSocket} {c : QByteArray} (hneg : s._lengthToRead < 0) (hc : c ≠ [])
    (hnone : findFirst CRLFCRLF (s._readBuffer ++ c) = none) :
    waitForReadyReadRequest mkHeader fs lim s c
      = ({ s with _readBuffer := s._readBuffer ++ c }, Outcome.returned false) := by
  have h1 : ¬ s._lengthToRead > 0 := by omega
  have h2 : ¬ s._lengthToRead = 0 := by omega
  simp [waitForReadyReadRequest, hc, h1, hneg, indexOf, hnone, canReadRequest, h2]

theorem step_header (mkHeader : HeaderCtor) (fs : FileSystem) (lim : Int)
    {s : THttpSocket} {c H X : QByteArray} (hneg : s._lengthToRead < 0) (hc : c ≠ [])
    (hbuf : s._readBuffer ++ c = H ++ X) (hH : IsHeader H)
    (hlim : passesLimit lim (mkHeader (H ++ X)).contentLength)
    (hfs : usesSpillFile (mkHeader (H ++ X)) → fs.openOk = true ∧ fs.writeOk = true) :
    waitForReadyReadRequest mkHeader fs lim s c
      = (if usesSpillFile (mkHeader (H ++ X)) then
          { s with
            _readBuffer := H ++ X
            _lengthToRead := max ((mkHeader (H ++ X)).contentLength - X.length) 0
            _fileBuffer := ⟨true, s._fileBuffer.data ++ X⟩ }
        else
          { s with
            _readBuffer := H ++ X
            _lengthToRead := max ((mkHeader (H ++ X)).contentLength - X.length) 0 },
        Outcome.returned (decide ((mkHeader (H ++ X)).contentLength ≤ X.length))) := by
  have h1 : ¬ s._lengthToRead > 0 := by omega
  have hidx := indexOf_header_append hH X
  have h4 := hH.1
  have hpos : indexOf (H ++ X) CRLFCRLF > 0 := by omega
  have hlen : (((H ++ X).length : Nat) : Int) = H.length + X.length := by simp
  have hmid : mid (H ++ X) (indexOf (H ++ X) CRLFCRLF + 4) = X := by
    simp [mid, hidx]
  have hrem : indexOf (H ++ X) CRLFCRLF + 4 + (mkHeader (H ++ X)).contentLength
      - ((H ++ X).length : Nat) = (mkHeader (H ++ X)).contentLength - X.length := by
    rw [hidx, hlen]; ring
  unfold passesLimit at hlim
  unfold waitForReadyReadRequest
  simp only [hc, ne_eq, not_false_eq_true, if_true, h1, if_false, hneg, hbuf, hpos, hlim,
    hmid, hrem]
  by_cases hsp : usesSpillFile (mkHeader (H ++ X))
  · have hsp2 := hsp
    obtain ⟨hopen, hwrite⟩ := hfs hsp
    unfold usesSpillFile at hsp2
    simp only [hsp, hsp2, if_true, hopen, hwrite]
    by_cases hX : X = []
    · subst hX
      have : ¬ ((((H ++ []).length : Nat) : Int) > indexOf (H ++ []) CRLFCRLF + 4) := by
        rw [hidx]; simp
      simp only [this, if_false]
      simp [canReadRequest, max_zero_beq]
    · have : ((((H ++ X).length : Nat) : Int) > indexOf (H ++ X) CRLFCRLF + 4) := by
        rw [hidx, hlen]
        have := List.length_pos.mpr hX
        omega
      simp only [this, if_true]
      simp [canReadRequest, max_zero_beq]
  · have hsp2 := hsp
    unfold usesSpillFile at hsp2
    simp only [hsp, hsp2, if_false]
    simp [canReadRequest, max_zero_beq]

theorem step_body (mkHeader : HeaderCtor) (fs : FileSystem) (lim : Int)
    {s : THttpSocket} {c : QByteArray} (hpos : s._lengthToRead > 0) (hc : c ≠ [])
    (hwrite : s._fileBuffer.isOpen = true → fs.writeOk = true) :
    waitForReadyReadRequest mkHeader fs lim s c
      = (if s._fileBuffer.isOpen then
          { s with
            _fileBuffer := { s._fileBuffer with data := s._fileBuffer.data ++ c }
            _lengthToRead := max (s._lengthToRead - c.length) 0 }
        else
          { s with
            _readBuffer := s._readBuffer ++ c
            _lengthToRead := max (s._lengthToRead - c.length) 0 },
        Outcome.returned (decide (s._lengthToRead ≤ c.length))) := by
  unfold waitForReadyReadRequest
  by_cases hf : s._fileBuffer.isOpen = true
  · simp [hc, hpos, hf, hwrite hf, canReadRequest, max_zero_beq]
  · simp [hc, hpos, hf, canReadRequest, max_zero_beq]

theorem readyOnLast_succ (n : Nat) :
    readyOnLast (n + 1) = List.replicate n (Outcome.returned false) ++ [Outcome.returned true] := by
  induction n with
  | zero => rfl
  | succ k ih => rw [readyOnLast, ih]; rfl

theorem flatten_pos {c : QByteArray} (cs : List QByteArray) (hc : c ≠ []) :
    0 < (List.flatten (c :: cs)).length := by
  have := List.length_pos.mpr hc
  simp only [List.flatten_cons, List.length_append]
  omega

theorem body_phase {mkHeader : HeaderCtor} {fs : FileSystem} {lim : Int} :
    ∀ (cs : List QByteArray) (s : THttpSocket), (∀ c ∈ cs, c ≠ []) →
      s._lengthToRead = (cs.flatten.length : Int) →
      (s._fileBuffer.isOpen = true → fs.writeOk = true) →
      feedAll mkHeader fs lim s cs
        = (if s._fileBuffer.isOpen then
            { s with
              _lengthToRead := 0
              _fileBuffer := { s._fileBuffer with data := s._fileBuffer.data ++ cs.flatten } }
          else
            { s with
              _lengthToRead := 0
              _readBuffer := s._readBuffer ++ cs.flatten },
          readyOnLast cs.length) := by
  intro cs
  induction cs with
  | nil =>
    intro s _ hlen _
    obtain ⟨a, b, c, d, e, f, g⟩ := s
    obtain ⟨fo, fd⟩ := f
    simp at hlen
    subst hlen
    cases fo <;> simp [feedAll, readyOnLast]
  | cons c cs ih =>
    intro s hne hlen hw
    have hc : c ≠ [] := hne c (List.mem_cons_self _ _)
    have hcs : ∀ x ∈ cs, x ≠ [] := fun x hx => hne x (List.mem_cons_of_mem _ hx)
    have hpos : s._lengthToRead > 0 := by
      have := flatten_pos cs hc
      omega
    have hstep := step_body mkHeader fs lim hpos hc hw
    have hrem : max (s._lengthToRead - c.length) 0 = (cs.flatten.length : Int) := by
      rw [hlen]
      simp only [List.flatten_cons, List.length_append, Nat.cast_add]
      omega
    rw [hrem] at hstep
    unfold feedAll
    simp only [hstep]
    obtain ⟨a, b, c', d, e, f, g⟩ := s
    obtain ⟨fo, fd⟩ := f
    cases fo
    · simp only [Bool.false_eq_true, if_false]
      rw [ih _ hcs (by simp) (by simp)]
      simp only [Bool.false_eq_true, if_false]
      cases cs with
      | nil => simp at hlen; simp [readyOnLast, hlen]
      | cons c2 cs2 =>
        have h2 := flatten_pos cs2 (hcs c2 (List.mem_cons_self _ _))
        have : ¬ (d ≤ (c.length : Int)) := by
          simp only [List.flatten_cons, List.length_append, Nat.cast_add] at hlen h2
          omega
        simp [readyOnLast, this]
    · simp only [if_true]
      rw [ih _ hcs (by simp) (by simpa using hw)]
      simp only [if_true]
      cases cs with
      | nil => simp at hlen; simp [readyOnLast, hlen]
      | cons c2 cs2 =>
        have h2 := flatten_pos cs2 (hcs c2 (List.mem_cons_self _ _))
        have : ¬ (d ≤ (c.length : Int)) := by
          simp only [List.flatten_cons, List.length_append, Nat.cast_add] at hlen h2
          omega
        simp [readyOnLast, this]

theorem header_phase {mkHeader : HeaderCtor} {fs : FileSystem} {lim : Int} {H B T : QByteArray}
    (hH : IsHeader H) (hdecl : ∀ X, mkHeader (H ++ X) = ⟨B.length, T⟩)
    (hlim : passesLimit lim B.length) (hopen : fs.openOk = true) (hwrite : fs.writeOk = true) :
    ∀ (cs : List QByteArray) (s : THttpSocket), (∀ c ∈ cs, c ≠ []) →
      s._lengthToRead < 0 → s._readBuffer.length < H.length →
      s._readBuffer ++ cs.flatten = H ++ B → s._fileBuffer.isOpen = false →
      feedAll mkHeader fs lim s cs
        = (if usesSpillFile ⟨B.length, T⟩ then
            { s with
              _lengthToRead := 0
              _readBuffer := s._readBuffer ++ upToHeader (H.length - s._readBuffer.length) cs
              _fileBuffer := ⟨true, s._fileBuffer.data ++ B⟩ }
          else
            { s with
              _lengthToRead := 0
              _readBuffer := H ++ B },
          readyOnLast cs.length) := by
  intro cs
  induction cs with
  | nil =>
    intro s _ _ hshort hsplit _
    exfalso
    have := congrArg List.length hsplit
    simp at this
    omega
  | cons c cs ih =>
    intro s hne hneg hshort hsplit hclosed
    have hc : c ≠ [] := hne c (List.mem_cons_self _ _)
    have hcs : ∀ x ∈ cs, x ≠ [] := fun x hx => hne x (List.mem_cons_of_mem _ hx)
    have hsplit2 : (s._readBuffer ++ c) ++ cs.flatten = H ++ B := by
      rw [← hsplit, List.flatten_cons, List.append_assoc]
    by_cases hlen : (s._readBuffer ++ c).length < H.length
    · -- the header is still incomplete after this chunk
      have hnone := findFirst_none_of_short hH hsplit2 hlen
      have hstep := step_awaiting mkHeader fs lim hneg hc hnone
      have hcsne : cs ≠ [] := by
        intro h
        subst h
        have := congrArg List.length hsplit2
        simp at this hlen
        omega
      unfold feedAll
      simp only [hstep]
      rw [ih { s with _readBuffer := s._readBuffer ++ c } hcs hneg hlen hsplit2 hclosed]
      have hn : ¬ (H.length - s._readBuffer.length ≤ c.length) := by
        simp at hlen
        omega
      have hsub : H.length - (s._readBuffer ++ c).length
          = H.length - s._readBuffer.length - c.length := by
        simp
        omega
      obtain ⟨n, hn2⟩ := List.exists_cons_of_ne_nil hcsne
      obtain ⟨m, hm⟩ := hn2
      subst hm
      simp only [upToHeader, hn, if_false, hsub, List.append_assoc, List.length_cons, readyOnLast]
    · -- this chunk completes the header
      have hge : H.length ≤ (s._readBuffer ++ c).length := by omega
      obtain ⟨X, hX, hB⟩ : ∃ X, s._readBuffer ++ c = H ++ X ∧ X ++ cs.flatten = B := by
        rcases List.append_eq_append_iff.mp hsplit2 with ⟨a, ha, hb⟩ | ⟨a, ha, hb⟩
        · have : a = [] := by
            have := congrArg List.length ha
            simp at this hge
            apply List.eq_nil_of_length_eq_zero
            omega
          subst this
          refine ⟨[], ?_, ?_⟩
          · simpa using ha.symm
          · simpa using hb
        · exact ⟨a, ha, hb.symm⟩
      have hdX := hdecl X
      have hstep := step_header mkHeader fs lim hneg hc hX hH
        (by rw [hdX]; exact hlim) (fun _ => ⟨hopen, hwrite⟩)
      rw [hdX] at hstep
      have hBlen : (B.length : Int) = X.length + cs.flatten.length := by
        rw [← hB]; simp
      have hrem : max ((B.length : Int) - X.length) 0 = (cs.flatten.length : Int) := by
        omega
      simp only [hrem] at hstep
      have hup : upToHeader (H.length - s._readBuffer.length) (c :: cs) = c := by
        have : H.length - s._readBuffer.length ≤ c.length := by
          simp at hge
          omega
        simp [upToHeader, this]
      unfold feedAll
      simp only [hstep, hup]
      have hout : Outcome.returned (decide ((B.length : Int) ≤ X.length)) :: readyOnLast cs.length
          = readyOnLast (c :: cs).length := by
        cases cs with
        | nil =>
          have : (B.length : Int) ≤ X.length := by simp at hBlen; omega
          simp [readyOnLast, this]
        | cons c2 cs2 =>
          have h2 := flatten_pos cs2 (hcs c2 (List.mem_cons_self _ _))
          have : ¬ ((B.length : Int) ≤ X.length) := by omega
          simp [readyOnLast, this]
      by_cases hsp : usesSpillFile ⟨B.length, T⟩
      · simp only [hsp, if_true]
        rw [body_phase cs _ hcs (by simp) (by intro _; exact hwrite)]
        simp only [if_true, hout]
        simp [← hB, hX]
      · simp only [hsp, if_false]
        rw [body_phase cs _ hcs (by simp) (by intro _; exact hwrite)]
        simp only [hclosed, Bool.false_eq_true, if_false, hout]
        simp [← hB, hX]

/-! ## The concrete header parser reads the header block only -/

theorem headerBlock_append : ∀ {xs : QByteArray} {i : Nat} (ys : QByteArray),
    findFirst CRLFCRLF xs = some i → headerBlock (xs ++ ys) = headerBlock xs := by
  intro xs
  induction xs with
  | nil => intro i ys h; simp [findFirst, CRLFCRLF, List.isPrefixOf] at h
  | cons b bs ih =>
    intro i ys h
    unfold findFirst at h
    split at h
    · rename_i hp
      have hp2 : CRLFCRLF.isPrefixOf (b :: (bs ++ ys)) = true := by
        rw [List.isPrefixOf_iff_prefix] at hp ⊢
        exact hp.trans (List.prefix_append (b :: bs) ys)
      simp [headerBlock, hp, hp2]
    · rename_i hp
      cases hj : findFirst CRLFCRLF bs with
      | none => simp [hj] at h
      | some j =>
        have hb := findFirst_bound hj
        have hp2 : ¬ CRLFCRLF.isPrefixOf (b :: (bs ++ ys)) = true := by
          intro hc
          apply hp
          rw [List.isPrefixOf_iff_prefix] at hc ⊢
          exact List.prefix_of_prefix_length_le hc (List.prefix_append (b :: bs) ys)
            (by simp [CRLFCRLF] at hb ⊢; omega)
        simp [headerBlock, hp, hp2, ih ys hj]

theorem parseHeader_readsHeaderBlockOnly : ReadsHeaderBlockOnly parseHeader := by
  intro buf ext hidx
  cases hf : findFirst CRLFCRLF buf with
  | none => simp [indexOf, hf] at hidx
  | some i => simp [parseHeader, rawHeader, headerBlock_append ext hf]

theorem parseHeader_append {H : QByteArray} (hH : IsHeader H) (X : QByteArray) :
    parseHeader (H ++ X) = parseHeader H := by
  simp [parseHeader, rawHeader, headerBlock_append X hH.2]

theorem passesLimit_zero (L : Int) : passesLimit 0 L := by
  simp [passesLimit, systemLimitBodyBytes, wrap64]

/-! ## Runs over a well-formed request -/

theorem feedAll_wellFormed {mkHeader : HeaderCtor} {fs : FileSystem} {lim : Int}
    {H B T : QByteArray} {chunks : List QByteArray} {s : THttpSocket}
    (hwf : WellFormed mkHeader H B T) (hlim : passesLimit lim B.length)
    (hopen : fs.openOk = true) (hwrite : fs.writeOk = true) (hs : Idle s)
    (hch : IsChunking chunks (H ++ B)) :
    feedAll mkHeader fs lim s chunks
      = (if usesSpillFile ⟨B.length, T⟩ then
          { s with
            _lengthToRead := 0
            _readBuffer := upToHeader H.length chunks
            _fileBuffer := ⟨true, B⟩ }
        else
          { s with
            _lengthToRead := 0
            _readBuffer := H ++ B },
        readyOnLast chunks.length) := by
  obtain ⟨h1, h2, h3⟩ := hs
  have h4 := hwf.header.1
  have := @header_phase mkHeader fs lim H B T hwf.header hwf.declared hlim hopen hwrite chunks s
    hch.1 (by omega) (by rw [h2]; simp; omega) (by rw [h2]; simpa using hch.2) (by rw [h3])
  rw [this, h2, h3]
  simp

theorem isChunking_single {H B : QByteArray} (hH : IsHeader H) : IsChunking [H ++ B] (H ++ B) := by
  have h4 := hH.1
  refine ⟨?_, by simp⟩
  intro c hc
  simp at hc
  subst hc
  intro h
  have := congrArg List.length h
  simp only [List.length_append, List.length_nil] at this
  omega

theorem chunks_ne_nil {H B : QByteArray} {chunks : List QByteArray} (hH : IsHeader H)
    (hch : IsChunking chunks (H ++ B)) : chunks ≠ [] := by
  intro h
  have h4 := hH.1
  have := congrArg List.length hch.2
  rw [h] at this
  simp only [List.flatten_nil, List.length_nil, List.length_append] at this
  omega

theorem readyOnLast_length {chunks : List QByteArray} (h : chunks ≠ []) :
    readyOnLast chunks.length
      = List.replicate (chunks.length - 1) (Outcome.returned false) ++ [Outcome.returned true] := by
  obtain ⟨c, cs, rfl⟩ := List.exists_cons_of_ne_nil h
  simpa using readyOnLast_succ cs.length

theorem upToHeader_prefix : ∀ (chunks : List QByteArray) (H B : QByteArray), 0 < H.length →
    chunks.flatten = H ++ B → ∃ X Y, upToHeader H.length chunks = H ++ X ∧ X ++ Y = B := by
  intro chunks
  induction chunks with
  | nil =>
    intro H B hpos h
    have := congrArg List.length h
    simp at this
    omega
  | cons c cs ih =>
    intro H B hpos h
    rw [List.flatten_cons] at h
    by_cases hle : H.length ≤ c.length
    · simp only [upToHeader, hle, if_true]
      rcases List.append_eq_append_iff.mp h with ⟨a, ha, hb⟩ | ⟨a, ha, hb⟩
      · have : a = [] := by
          have := congrArg List.length ha
          simp at this
          apply List.eq_nil_of_length_eq_zero
          omega
        subst this
        exact ⟨[], cs.flatten, by simpa using ha.symm, by simpa using hb⟩
      · exact ⟨a, cs.flatten, ha, hb.symm⟩
    · simp only [upToHeader, hle, if_false]
      rcases List.append_eq_append_iff.mp h with ⟨a, ha, hb⟩ | ⟨a, ha, hb⟩
      · have hapos : 0 < a.length := by
          have := congrArg List.length ha
          simp at this
          omega
        have hlen : H.length - c.length = a.length := by
          have := congrArg List.length ha
          simp at this
          omega
        obtain ⟨X, Y, hX, hY⟩ := ih a B hapos hb
        rw [hlen, hX, ha]
        exact ⟨X, Y, by simp, hY⟩
      · exfalso
        have := congrArg List.length ha
        simp at this
        omega

/-! ## C1: chunking independence -/

/-- Claim C1, refuted as stated: the multipart request `uploadHeader` followed by the body
`abc` is well formed, and both `[header, body]` and the single chunk are chunkings of it,
yet `read` hands over different material: fed in two chunks the byte array of the record
is the header block alone, fed as one chunk it is the header block followed by the body. -/
theorem chunking_changes_spill_record :
    WellFormed parseHeader uploadHeader (bytes "abc") (bytes "multipart/form-data")
    ∧ IsChunking [uploadHeader, bytes "abc"] (uploadHeader ++ bytes "abc")
    ∧ IsChunking [uploadHeader ++ bytes "abc"] (uploadHeader ++ bytes "abc")
    ∧ (read parseHeader (feedAll parseHeader ⟨true, true⟩ 0 (THttpSocket.fresh 0)
          [uploadHeader, bytes "abc"]).1).1
        = [THttpRequest.fromFile uploadHeader (bytes "abc")]
    ∧ (read parseHeader (feedAll parseHeader ⟨true, true⟩ 0 (THttpSocket.fresh 0)
          [uploadHeader ++ bytes "abc"]).1).1
        = [THttpRequest.fromFile (uploadHeader ++ bytes "abc") (bytes "abc")]
    ∧ (read parseHeader (feedAll parseHeader ⟨true, true⟩ 0 (THttpSocket.fresh 0)
          [uploadHeader, bytes "abc"]).1).1
        ≠ (read parseHeader (feedAll parseHeader ⟨true, true⟩ 0 (THttpSocket.fresh 0)
          [uploadHeader ++ bytes "abc"]).1).1 := by
  refine ⟨⟨by decide, ?_⟩, by decide, by decide, by decide, by decide, by decide⟩
  intro X
  rw [parseHeader_append (by decide) X]
  decide

/-- Claim C1, amended: for a well-formed request `H ++ B` within the size limit, fed from
the idle state in any chunking, `waitForReadyReadRequest` returns true exactly once, on the
last chunk; the temporary file (open or not, and its contents) is the same as after feeding
the request as one chunk; when no spill file is used `read` returns the same records as
after the single chunk; when a spill file is used the record carries the file contents `B`
in every chunking, and its byte array is the chunks up to and including the one that
completes the header: `H` followed by the body bytes that arrived in that chunk (all of `B`
for the single chunk). -/
theorem chunking_independence (mkHeader : HeaderCtor) (fs : FileSystem) (lim : Int)
    (H B T : QByteArray) (chunks : List QByteArray) (s : THttpSocket)
    (hwf : WellFormed mkHeader H B T) (hlim : passesLimit lim B.length)
    (hopen : fs.openOk = true) (hwrite : fs.writeOk = true) (hs : Idle s)
    (hch : IsChunking chunks (H ++ B)) :
    (feedAll mkHeader fs lim s chunks).2
        = List.replicate (chunks.length - 1) (Outcome.returned false) ++ [Outcome.returned true]
    ∧ (feedAll mkHeader fs lim s chunks).1._fileBuffer
        = (feedAll mkHeader fs lim s [H ++ B]).1._fileBuffer
    ∧ (¬ usesSpillFile ⟨B.length, T⟩ →
        (read mkHeader (feedAll mkHeader fs lim s chunks).1).1
          = (read mkHeader (feedAll mkHeader fs lim s [H ++ B]).1).1)
    ∧ (usesSpillFile ⟨B.length, T⟩ →
        (read mkHeader (feedAll mkHeader fs lim s chunks).1).1
            = [THttpRequest.fromFile (upToHeader H.length chunks) B]
        ∧ (read mkHeader (feedAll mkHeader fs lim s [H ++ B]).1).1
            = [THttpRequest.fromFile (H ++ B) B]
        ∧ ∃ X Y, upToHeader H.length chunks = H ++ X ∧ X ++ Y = B) := by
  have hrun := feedAll_wellFormed hwf hlim hopen hwrite hs hch
  have hone := feedAll_wellFormed hwf hlim hopen hwrite hs (isChunking_single (B := B) hwf.header)
  have hup : upToHeader H.length [H ++ B] = H ++ B := by simp [upToHeader]
  rw [hup] at hone
  refine ⟨?_, ?_, ?_, ?_⟩
  · rw [hrun]
    exact readyOnLast_length (chunks_ne_nil hwf.header hch)
  · rw [hrun, hone]
    by_cases hsp : usesSpillFile ⟨B.length, T⟩ <;> simp [hsp]
  · intro hsp
    rw [hrun, hone]
    simp [hsp]
  · intro hsp
    rw [hrun, hone]
    refine ⟨by simp [hsp, read, canReadRequest], by simp [hsp, read, canReadRequest], ?_⟩
    have h4 := hwf.header.1
    exact upToHeader_prefix chunks H B (by omega) hch.2

/-- Claim C1, amended, at a concrete input: the multipart request fed as header block, then
body. -/
theorem chunking_independence_witness :
    (feedAll parseHeader ⟨true, true⟩ 0 (THttpSocket.fresh 0) [uploadHeader, bytes "abc"]).2
      = List.replicate ([uploadHeader, bytes "abc"].length - 1) (Outcome.returned false)
          ++ [Outcome.returned true] :=
  (chunking_independence parseHeader ⟨true, true⟩ 0 uploadHeader (bytes "abc")
    (bytes "multipart/form-data") [uploadHeader, bytes "abc"] (THttpSocket.fresh 0)
    ⟨by decide, fun X => by rw [parseHeader_append (by decide) X]; decide⟩
    (passesLimit_zero _) rfl rfl (by decide) (by decide)).1

/-! ## C2: body fidelity -/

/-- Claim C2: for a well-formed request `H ++ B` (within the size limit, temporary-file
operations succeeding) fed from the idle state in any chunking, the run reaches
RequestReady on the last chunk, and then: if the declared length `len(B)` exceeds
`READ_THRESHOLD_LENGTH` the temporary file is open and holds exactly `B`; if it does not
exceed the threshold and the content type is not multipart, no temporary file is open and
the in-memory buffer is exactly `H ++ B`. -/
theorem body_fidelity (mkHeader : HeaderCtor) (fs : FileSystem) (lim : Int)
    (H B T : QByteArray) (chunks : List QByteArray) (s : THttpSocket)
    (hwf : WellFormed mkHeader H B T) (hlim : passesLimit lim B.length)
    (hopen : fs.openOk = true) (hwrite : fs.writeOk = true) (hs : Idle s)
    (hch : IsChunking chunks (H ++ B)) :
    (feedAll mkHeader fs lim s chunks).2
        = List.replicate (chunks.length - 1) (Outcome.returned false) ++ [Outcome.returned true]
    ∧ canReadRequest (feedAll mkHeader fs lim s chunks).1 = true
    ∧ ((B.length : Int) > READ_THRESHOLD_LENGTH →
        (feedAll mkHeader fs lim s chunks).1._fileBuffer = ⟨true, B⟩)
    ∧ ((B.length : Int) ≤ READ_THRESHOLD_LENGTH →
        startsWith (trimmed T) (bytes "multipart/form-data") = false →
        (feedAll mkHeader fs lim s chunks).1._fileBuffer.isOpen = false
        ∧ (feedAll mkHeader fs lim s chunks).1._readBuffer = H ++ B) := by
  have hrun := feedAll_wellFormed hwf hlim hopen hwrite hs hch
  refine ⟨?_, ?_, ?_, ?_⟩
  · rw [hrun]
    exact readyOnLast_length (chunks_ne_nil hwf.header hch)
  · rw [hrun]
    by_cases hsp : usesSpillFile ⟨B.length, T⟩ <;> simp [hsp, canReadRequest]
  · intro hbig
    have hsp : usesSpillFile ⟨B.length, T⟩ := Or.inl hbig
    rw [hrun]
    simp [hsp]
  · intro hsmall hnot
    have hsp : ¬ usesSpillFile ⟨B.length, T⟩ := by
      unfold usesSpillFile
      simp only [hnot]
      intro h
      rcases h with h | h
      · omega
      · simp at h
    rw [hrun]
    simp [hsp, hs.2.2]

theorem largeBody_length : largeBody.length = 2097153 :=
  List.length_replicate 2097153 120

theorem largeBody_ne_nil : largeBody ≠ [] := by
  intro h
  have := congrArg List.length h
  rw [largeBody_length] at this
  exact absurd this (by decide)

/-- Claim C2 at concrete inputs: a request of five body bytes fed byte-wise in the body, and
a request whose body is one byte longer than the spill threshold. -/
theorem body_fidelity_witness :
    ((feedAll parseHeader ⟨true, true⟩ 0 (THttpSocket.fresh 0)
        [postHeader, bytes "he", bytes "llo"]).1._readBuffer = postHeader ++ bytes "hello")
    ∧ ((feedAll parseHeader ⟨true, true⟩ 0 (THttpSocket.fresh 0)
        [largeHeader, largeBody]).1._fileBuffer = ⟨true, largeBody⟩) :=
  ⟨((body_fidelity parseHeader ⟨true, true⟩ 0 postHeader (bytes "hello") [] 
      [postHeader, bytes "he", bytes "llo"] (THttpSocket.fresh 0)
      ⟨by decide, fun X => by rw [parseHeader_append (by decide) X]; decide⟩
      (passesLimit_zero _) rfl rfl (by decide) (by decide)).2.2.2 (by decide) (by decide)).2,
   (body_fidelity parseHeader ⟨true, true⟩ 0 largeHeader largeBody []
      [largeHeader, largeBody] (THttpSocket.fresh 0)
      ⟨by decide, fun X => by
        rw [parseHeader_append (by decide) X, largeBody_length]
        decide⟩
      (passesLimit_zero _) rfl rfl (by decide)
      ⟨by
        intro c hc
        simp only [List.mem_cons, List.mem_singleton, List.not_mem_nil, or_false] at hc
        rcases hc with rfl | rfl
        · decide
        · exact largeBody_ne_nil,
       by simp only [List.flatten_cons, List.flatten_nil, List.append_nil]⟩).2.2.1
      (by rw [largeBody_length]; decide)⟩

/-! ## C3 and C4: the body size limit -/

theorem systemLimitBodyBytes_eq {M : Int} (hM : 0 ≤ M) (hrep : 2 * M < 2 ^ 63) :
    systemLimitBodyBytes M = 2 * M := by
  unfold systemLimitBodyBytes wrap64
  norm_num at hrep ⊢
  omega

theorem threw_tooLarge_iff (mkHeader : HeaderCtor) (fs : FileSystem) (M : Int)
    (s : THttpSocket) (c : QByteArray) :
    (waitForReadyReadRequest mkHeader fs M s c).2
        = Outcome.threw (Exception.ClientErrorException RequestEntityTooLarge)
      ↔ (c ≠ [] ∧ s._lengthToRead < 0 ∧ indexOf (s._readBuffer ++ c) CRLFCRLF > 0
          ∧ systemLimitBodyBytes M > 0
          ∧ (mkHeader (s._readBuffer ++ c)).contentLength > systemLimitBodyBytes M) := by
  by_cases hc : c = []
  · simp [waitForReadyReadRequest, hc]
  by_cases hpos : s._lengthToRead > 0
  · have hneg : ¬ s._lengthToRead < 0 := by omega
    unfold waitForReadyReadRequest
    simp only [hc, ne_eq, not_false_eq_true, if_true, hpos]
    split_ifs <;> simp [hneg]
  by_cases hneg : s._lengthToRead < 0
  · by_cases hidx : indexOf (s._readBuffer ++ c) CRLFCRLF > 0
    · by_cases hl : systemLimitBodyBytes M > 0
          ∧ (mkHeader (s._readBuffer ++ c)).contentLength > systemLimitBodyBytes M
      · unfold waitForReadyReadRequest
        simp only [hc, ne_eq, not_false_eq_true, if_true, hpos, if_false, hneg, hidx, hl]
        simp [hl.1, hl.2]
      · unfold waitForReadyReadRequest
        simp only [hc, ne_eq, not_false_eq_true, if_true, hpos, if_false, hneg, hidx, hl]
        split_ifs <;> simp
    · unfold waitForReadyReadRequest
      simp only [hc, ne_eq, not_false_eq_true, if_true, hpos, if_false, hneg, hidx]
      simp [hidx]
  · unfold waitForReadyReadRequest
    simp only [hc, ne_eq, not_false_eq_true, if_true, hpos, if_false, hneg]
    simp [hneg]

theorem state_after_tooLarge (mkHeader : HeaderCtor) (fs : FileSystem) (M : Int)
    (s : THttpSocket) (c : QByteArray)
    (hfail : (waitForReadyReadRequest mkHeader fs M s c).2
        = Outcome.threw (Exception.ClientErrorException RequestEntityTooLarge)) :
    (waitForReadyReadRequest mkHeader fs M s c).1 = { s with _readBuffer := s._readBuffer ++ c } := by
  obtain ⟨h1, h2, h3, h4, h5⟩ := (threw_tooLarge_iff mkHeader fs M s c).mp hfail
  have h6 : ¬ s._lengthToRead > 0 := by omega
  simp [waitForReadyReadRequest, h1, h2, h3, h4, h5, h6]

theorem indexOf_append_of_pos {buf : QByteArray} (ext : QByteArray)
    (h : indexOf buf CRLFCRLF > 0) : indexOf (buf ++ ext) CRLFCRLF = indexOf buf CRLFCRLF := by
  cases hf : findFirst CRLFCRLF buf with
  | none => simp [indexOf, hf] at h
  | some i => simp [indexOf, hf, findFirst_append ext hf]

/-- Claim C3, refuted as stated: with the configured maximum `M = 10` the header block
`fifteenHeader` declares `L = 15 > M`, yet the feed that completes it does not fail: it
returns false with fifteen body bytes still to read. -/
theorem declared_above_limit_accepted :
    (0 : Int) < 10
    ∧ (parseHeader fifteenHeader).contentLength = 15
    ∧ (parseHeader fifteenHeader).contentLength > 10
    ∧ indexOf ((THttpSocket.fresh 0)._readBuffer ++ fifteenHeader) CRLFCRLF > 0
    ∧ waitForReadyReadRequest parseHeader ⟨true, true⟩ 10 (THttpSocket.fresh 0) fifteenHeader
        = ({ THttpSocket.fresh 0 with _readBuffer := fifteenHeader, _lengthToRead := 15 },
            Outcome.returned false) := by
  decide

/-- Claim C3, amended: the limit enforced is twice the configured value. For every
configured maximum `M > 0` (with `2 * M` in the `qint64` range) and every non-empty chunk
fed in AwaitingHeader that completes a header (delimiter found at an offset `idx > 0` of the
buffer), the feed throws `ClientErrorException(RequestEntityTooLarge)` if the declared
Content-Length `L` satisfies `L > 2 * M`, and does not throw it if `L ≤ 2 * M`. -/
theorem entity_too_large (mkHeader : HeaderCtor) (fs : FileSystem) (M : Int)
    (s : THttpSocket) (c : QByteArray) (hM : 0 < M) (hrep : 2 * M < 2 ^ 63)
    (hneg : s._lengthToRead < 0) (hc : c ≠ [])
    (hidx : indexOf (s._readBuffer ++ c) CRLFCRLF > 0) :
    (waitForReadyReadRequest mkHeader fs M s c).2
        = Outcome.threw (Exception.ClientErrorException RequestEntityTooLarge)
      ↔ (mkHeader (s._readBuffer ++ c)).contentLength > 2 * M := by
  rw [threw_tooLarge_iff, systemLimitBodyBytes_eq hM.le hrep]
  constructor
  · intro h
    exact h.2.2.2.2
  · intro h
    exact ⟨hc, hneg, hidx, by omega, h⟩

/-- Claim C3, amended, at a concrete input: configured maximum 7, declared length 15. -/
theorem entity_too_large_witness :
    (waitForReadyReadRequest parseHeader ⟨true, true⟩ 7 (THttpSocket.fresh 0) fifteenHeader).2
      = Outcome.threw (Exception.ClientErrorException RequestEntityTooLarge) :=
  (entity_too_large parseHeader ⟨true, true⟩ 7 (THttpSocket.fresh 0) fifteenHeader
    (by decide) (by decide) (by decide) (by decide) (by decide)).mpr (by decide)

theorem feedAll_after_tooLarge (mkHeader : HeaderCtor) (fs : FileSystem) (M : Int)
    (hstable : ReadsHeaderBlockOnly mkHeader) :
    ∀ (later : List QByteArray) (t : THttpSocket), (∀ x ∈ later, x ≠ []) →
      t._lengthToRead = -1 → indexOf t._readBuffer CRLFCRLF > 0 →
      systemLimitBodyBytes M > 0 →
      (mkHeader t._readBuffer).contentLength > systemLimitBodyBytes M →
      feedAll mkHeader fs M t later
        = ({ t with _readBuffer := t._readBuffer ++ later.flatten },
            List.replicate later.length
              (Outcome.threw (Exception.ClientErrorException RequestEntityTooLarge))) := by
  intro later
  induction later with
  | nil => intro t _ _ _ _ _; simp [feedAll]
  | cons x xs ih =>
    intro t hne hlen hidx hlim hbig
    have hx : x ≠ [] := hne x (List.mem_cons_self _ _)
    have hxs : ∀ y ∈ xs, y ≠ [] := fun y hy => hne y (List.mem_cons_of_mem _ hy)
    have hidx2 : indexOf (t._readBuffer ++ x) CRLFCRLF > 0 := by
      rw [indexOf_append_of_pos x hidx]; exact hidx
    have hbig2 : (mkHeader (t._readBuffer ++ x)).contentLength > systemLimitBodyBytes M := by
      rw [hstable _ x hidx]; exact hbig
    have hthrow := (threw_tooLarge_iff mkHeader fs M t x).mpr
      ⟨hx, by omega, hidx2, hlim, hbig2⟩
    have hstate := state_after_tooLarge mkHeader fs M t x hthrow
    unfold feedAll
    simp only [hthrow, hstate]
    rw [ih { t with _readBuffer := t._readBuffer ++ x } hxs hlen hidx2 hlim hbig2]
    simp [List.replicate_succ]

/-- Claim C4: when a feed throws the entity-too-large error (the header collaborator
reading the header block only, `_lengthToRead` being `-1` whenever negative), the state
machine has not transitioned: `_lengthToRead` was and still is `-1`, the temporary file is
untouched, `canReadRequest` is false and `read` returns the empty list; and every later
non-empty feed on the same connection throws the same error, leaves `_lengthToRead` at `-1`
and the file untouched, so that `read` still returns the empty list. -/
theorem no_record_after_entity_too_large (mkHeader : HeaderCtor) (fs : FileSystem) (M : Int)
    (s : THttpSocket) (c : QByteArray) (hstable : ReadsHeaderBlockOnly mkHeader)
    (hinv : -1 ≤ s._lengthToRead)
    (hfail : (waitForReadyReadRequest mkHeader fs M s c).2
        = Outcome.threw (Exception.ClientErrorException RequestEntityTooLarge)) :
    s._lengthToRead = -1
    ∧ (waitForReadyReadRequest mkHeader fs M s c).1._lengthToRead = -1
    ∧ (waitForReadyReadRequest mkHeader fs M s c).1._fileBuffer = s._fileBuffer
    ∧ canReadRequest (waitForReadyReadRequest mkHeader fs M s c).1 = false
    ∧ (read mkHeader (waitForReadyReadRequest mkHeader fs M s c).1).1 = []
    ∧ ∀ later : List QByteArray, (∀ x ∈ later, x ≠ []) →
        (feedAll mkHeader fs M (waitForReadyReadRequest mkHeader fs M s c).1 later).2
            = List.replicate later.length
                (Outcome.threw (Exception.ClientErrorException RequestEntityTooLarge))
        ∧ (feedAll mkHeader fs M (waitForReadyReadRequest mkHeader fs M s c).1 later).1._lengthToRead
            = -1
        ∧ (feedAll mkHeader fs M (waitForReadyReadRequest mkHeader fs M s c).1 later).1._fileBuffer
            = s._fileBuffer
        ∧ (read mkHeader
            (feedAll mkHeader fs M (waitForReadyReadRequest mkHeader fs M s c).1 later).1).1 = [] := by
  obtain ⟨h1, h2, h3, h4, h5⟩ := (threw_tooLarge_iff mkHeader fs M s c).mp hfail
  have hlen : s._lengthToRead = -1 := by omega
  have hstate := state_after_tooLarge mkHeader fs M s c hfail
  rw [hstate]
  refine ⟨hlen, hlen, rfl, by simp [canReadRequest, hlen], by simp [read, canReadRequest, hlen], ?_⟩
  intro later hne
  rw [feedAll_after_tooLarge mkHeader fs M hstable later
    { s with _readBuffer := s._readBuffer ++ c } hne hlen h3 h4 h5]
  exact ⟨rfl, hlen, rfl, by simp [read, canReadRequest, hlen]⟩

/-- Claim C4 at a concrete input: configured maximum 7, a header block declaring fifteen
bytes, and two later chunks. -/
theorem no_record_after_entity_too_large_witness :
    (feedAll parseHeader ⟨true, true⟩ 7
        (waitForReadyReadRequest parseHeader ⟨true, true⟩ 7 (THttpSocket.fresh 0) fifteenHeader).1
        [bytes "ab", getHeader]).2
      = List.replicate [bytes "ab", getHeader].length
          (Outcome.threw (Exception.ClientErrorException RequestEntityTooLarge)) :=
  ((no_record_after_entity_too_large parseHeader ⟨true, true⟩ 7 (THttpSocket.fresh 0)
    fifteenHeader parseHeader_readsHeaderBlockOnly (by decide) (by decide)).2.2.2.2.2
      [bytes "ab", getHeader] (by decide)).1

/-! ## C5: reset after hand-off -/

theorem closedFileEmpty_fresh (sid : Int) : ClosedFileEmpty (THttpSocket.fresh sid) := by
  intro _; rfl

theorem closedFileEmpty_waitForReadyReadRequest (mkHeader : HeaderCtor) (fs : FileSystem)
    (lim : Int) (s : THttpSocket) (c : QByteArray) (h : ClosedFileEmpty s) :
    ClosedFileEmpty (waitForReadyReadRequest mkHeader fs lim s c).1 := by
  by_cases hc : c = []
  · simpa [waitForReadyReadRequest, hc] using h
  by_cases hpos : s._lengthToRead > 0
  · unfold waitForReadyReadRequest
    simp only [hc, ne_eq, not_false_eq_true, if_true, hpos]
    split_ifs with ho hw
    · intro h'
      simp only [ho] at h'
      exact absurd h' (by simp)
    · exact h
    · intro h'
      exact h h'
  by_cases hneg : s._lengthToRead < 0
  · unfold waitForReadyReadRequest
    simp only [hc, ne_eq, not_false_eq_true, if_true, hpos, if_false, hneg]
    split_ifs
    all_goals first
      | exact h
      | (intro h'; exact absurd h' (by simp))
  · unfold waitForReadyReadRequest
    simp only [hc, ne_eq, not_false_eq_true, if_true, hpos, if_false, hneg]
    exact h

theorem closedFileEmpty_read (mkHeader : HeaderCtor) (s : THttpSocket) (h : ClosedFileEmpty s) :
    ClosedFileEmpty (read mkHeader s).2 := by
  unfold read
  split_ifs <;> first
    | exact h
    | (intro _; rfl)

theorem idle_after_read (mkHeader : HeaderCtor) (s : THttpSocket)
    (hready : canReadRequest s = true) (hfile : ClosedFileEmpty s) :
    Idle (read mkHeader s).2 := by
  unfold read
  simp only [hready, if_true]
  by_cases ho : s._fileBuffer.isOpen = true
  · simp [ho, Idle]
  · have hc : s._fileBuffer.isOpen = false := by simpa using ho
    have hd := hfile hc
    obtain ⟨a, b, c, d, e, f, g⟩ := s
    obtain ⟨fo, fd⟩ := f
    simp at hc hd
    subst hc
    subst hd
    simp [Idle, generate]

theorem read_after_feedAll {mkHeader : HeaderCtor} {fs : FileSystem} {lim : Int}
    {H B T : QByteArray} {chunks : List QByteArray} {s : THttpSocket}
    (hwf : WellFormed mkHeader H B T) (hlim : passesLimit lim B.length)
    (hopen : fs.openOk = true) (hwrite : fs.writeOk = true) (hs : Idle s)
    (hch : IsChunking chunks (H ++ B)) :
    (read mkHeader (feedAll mkHeader fs lim s chunks).1).1
      = if usesSpillFile ⟨B.length, T⟩ then [THttpRequest.fromFile (upToHeader H.length chunks) B]
        else (generate mkHeader (H ++ B)).1 := by
  rw [feedAll_wellFormed hwf hlim hopen hwrite hs hch]
  by_cases hsp : usesSpillFile ⟨B.length, T⟩
  · simp [hsp, read, canReadRequest]
  · simp [hsp, read, canReadRequest, hs.2.2]

/-- Claim C5: in every state in which `canReadRequest` is true (the temporary file holding
no bytes while closed, as in every state the socket reaches), after `read` returns the
socket is idle: `_lengthToRead = -1`, the read buffer is empty and the temporary file is
closed and empty, on the spill-file path and on the in-memory path. Consequently a second
well-formed request fed from that state, in any chunking, reaches RequestReady on its last
chunk, and the records then handed over by `read` are those a fresh connection hands over
for the same chunks, built from bytes of the second request only. -/
theorem reset_after_handoff (mkHeader : HeaderCtor) (fs : FileSystem) (lim : Int)
    (s : THttpSocket) (hready : canReadRequest s = true) (hfile : ClosedFileEmpty s) :
    (read mkHeader s).2._lengthToRead = -1
    ∧ (read mkHeader s).2._readBuffer = []
    ∧ (read mkHeader s).2._fileBuffer = ⟨false, []⟩
    ∧ ∀ (H B T : QByteArray) (chunks : List QByteArray), WellFormed mkHeader H B T →
        passesLimit lim B.length → fs.openOk = true → fs.writeOk = true →
        IsChunking chunks (H ++ B) →
        (feedAll mkHeader fs lim (read mkHeader s).2 chunks).2
            = List.replicate (chunks.length - 1) (Outcome.returned false)
                ++ [Outcome.returned true]
        ∧ canReadRequest (feedAll mkHeader fs lim (read mkHeader s).2 chunks).1 = true
        ∧ (read mkHeader (feedAll mkHeader fs lim (read mkHeader s).2 chunks).1).1
            = (read mkHeader (feedAll mkHeader fs lim (THttpSocket.fresh 0) chunks).1).1
        ∧ (read mkHeader (feedAll mkHeader fs lim (read mkHeader s).2 chunks).1).1
            = (if usesSpillFile ⟨B.length, T⟩ then
                [THttpRequest.fromFile (upToHeader H.length chunks) B]
              else (generate mkHeader (H ++ B)).1) := by
  have hidle := idle_after_read mkHeader s hready hfile
  refine ⟨hidle.1, hidle.2.1, hidle.2.2, ?_⟩
  intro H B T chunks hwf hlim hopen hwrite hch
  have hfresh : Idle (THttpSocket.fresh 0) := by decide
  refine ⟨?_, ?_, ?_, ?_⟩
  · rw [feedAll_wellFormed hwf hlim hopen hwrite hidle hch]
    exact readyOnLast_length (chunks_ne_nil hwf.header hch)
  · rw [feedAll_wellFormed hwf hlim hopen hwrite hidle hch]
    by_cases hsp : usesSpillFile ⟨B.length, T⟩ <;> simp [hsp, canReadRequest]
  · rw [read_after_feedAll hwf hlim hopen hwrite hidle hch,
      read_after_feedAll hwf hlim hopen hwrite hfresh hch]
  · exact read_after_feedAll hwf hlim hopen hwrite hidle hch

/-- Claim C5 at a concrete input: the multipart request has been assembled through the
temporary file; after `read`, a second request is fed as header block, then body. -/
theorem reset_after_handoff_witness :
    (read parseHeader (feedAll parseHeader ⟨true, true⟩ 0
        (read parseHeader
          (feedAll parseHeader ⟨true, true⟩ 0 (THttpSocket.fresh 0) [uploadHeader, bytes "abc"]).1).2
        [postHeader, bytes "hello"]).1).1
      = (read parseHeader (feedAll parseHeader ⟨true, true⟩ 0 (THttpSocket.fresh 0)
          [postHeader, bytes "hello"]).1).1 :=
  ((reset_after_handoff parseHeader ⟨true, true⟩ 0
    (feedAll parseHeader ⟨true, true⟩ 0 (THttpSocket.fresh 0) [uploadHeader, bytes "abc"]).1
    (by decide) (by decide)).2.2.2 postHeader (bytes "hello") [] [postHeader, bytes "hello"]
    ⟨by decide, fun X => by rw [parseHeader_append (by decide) X]; decide⟩
    (passesLimit_zero _) rfl rfl (by decide)).2.2.1

/-! ## C6: pipelining -/

theorem generateLoop_nil (mkHeader : HeaderCtor) (fuel : Nat) :
    generateLoop mkHeader fuel [] = [] := by
  cases fuel with
  | zero => rfl
  | succ n => simp [generateLoop, indexOf, findFirst, CRLFCRLF, List.isPrefixOf]

theorem generateLoop_cons (mkHeader : HeaderCtor) (fuel : Nat) {H B T : QByteArray}
    (rest : QByteArray) (hH : IsHeader H)
    (hdecl : mkHeader (H ++ (B ++ rest)) = ⟨B.length, T⟩) :
    generateLoop mkHeader (fuel + 1) (H ++ (B ++ rest))
      = THttpRequest.fromMemory H B :: generateLoop mkHeader fuel rest := by
  have hidx := indexOf_header_append hH (B ++ rest)
  have h4 := hH.1
  have hge : indexOf (H ++ (B ++ rest)) CRLFCRLF ≥ 0 := by omega
  have hsum : indexOf (H ++ (B ++ rest)) CRLFCRLF + 4 = (H.length : Int) := by omega
  have hmax : max ((B.length : Nat) : Int) 0 = (B.length : Int) := by omega
  have hfit : (H.length : Int) + (B.length : Int) ≤ ((H ++ (B ++ rest)).length : Nat) := by
    simp only [List.length_append, Nat.cast_add]
    omega
  have hsum2 : (H.length : Int) + (B.length : Int) = ((H.length + B.length : Nat) : Int) := by
    simp
  rw [generateLoop]
  simp only [hge, if_true, hdecl, hmax, hsum, hfit, mid, Int.toNat_ofNat, hsum2]
  simp

/-- Claim C6: for two well-formed requests `H1 ++ B1` and `H2 ++ B2`, the first of which
does not use the spill file (only the first header is examined by the feed), the single
chunk `H1 ++ B1 ++ (H2 ++ B2)` fed from the idle state makes
`waitForReadyReadRequest` return true in that one call with the temporary file still
closed and the whole chunk in the read buffer; the following `read` passes that unmodified
buffer to `generate` and returns its result, two records, that of the first request and
then that of the second, and leaves the socket idle. -/
theorem pipelined_pair (mkHeader : HeaderCtor) (fs : FileSystem) (lim : Int)
    (H1 B1 T1 H2 B2 T2 : QByteArray) (s : THttpSocket)
    (hwf1 : WellFormed mkHeader H1 B1 T1) (hwf2 : WellFormed mkHeader H2 B2 T2)
    (hmem1 : ¬ usesSpillFile ⟨B1.length, T1⟩)
    (hlim : passesLimit lim B1.length) (hs : Idle s) :
    waitForReadyReadRequest mkHeader fs lim s (H1 ++ B1 ++ (H2 ++ B2))
        = ({ s with _lengthToRead := 0, _readBuffer := H1 ++ B1 ++ (H2 ++ B2) },
            Outcome.returned true)
    ∧ (waitForReadyReadRequest mkHeader fs lim s (H1 ++ B1 ++ (H2 ++ B2))).1._fileBuffer.isOpen
        = false
    ∧ (read mkHeader (waitForReadyReadRequest mkHeader fs lim s (H1 ++ B1 ++ (H2 ++ B2))).1).1
        = (generate mkHeader (H1 ++ B1 ++ (H2 ++ B2))).1
    ∧ (generate mkHeader (H1 ++ B1 ++ (H2 ++ B2))).1
        = [THttpRequest.fromMemory H1 B1, THttpRequest.fromMemory H2 B2]
    ∧ Idle (read mkHeader
        (waitForReadyReadRequest mkHeader fs lim s (H1 ++ B1 ++ (H2 ++ B2))).1).2 := by
  obtain ⟨hl, hb, hf⟩ := hs
  have h41 := hwf1.header.1
  have h42 := hwf2.header.1
  have hne : H1 ++ B1 ++ (H2 ++ B2) ≠ [] := by
    intro h
    have := congrArg List.length h
    simp only [List.length_append, List.length_nil] at this
    omega
  have hd1 := hwf1.declared (B1 ++ (H2 ++ B2))
  have hbuf : s._readBuffer ++ (H1 ++ B1 ++ (H2 ++ B2)) = H1 ++ (B1 ++ (H2 ++ B2)) := by
    rw [hb]; simp
  have hstep := step_header mkHeader fs lim (by omega) hne hbuf hwf1.header
    (by rw [hd1]; exact hlim) (by rw [hd1]; intro h; exact absurd h hmem1)
  rw [hd1] at hstep
  have hzero : max (((B1.length : Nat) : Int) - ((B1 ++ (H2 ++ B2)).length : Nat)) 0 = 0 := by
    simp only [List.length_append, Nat.cast_add]
    omega
  have hle : ((B1.length : Nat) : Int) ≤ ((B1 ++ (H2 ++ B2)).length : Nat) := by
    simp only [List.length_append, Nat.cast_add]
    omega
  simp only [hmem1, if_false, hzero, hle, decide_True] at hstep
  have hassoc : H1 ++ (B1 ++ (H2 ++ B2)) = H1 ++ B1 ++ (H2 ++ B2) := by simp
  rw [hassoc] at hstep
  have hgen : (generate mkHeader (H1 ++ B1 ++ (H2 ++ B2))).1
      = [THttpRequest.fromMemory H1 B1, THttpRequest.fromMemory H2 B2] := by
    obtain ⟨k, hk⟩ : ∃ k, (H1 ++ B1 ++ (H2 ++ B2)).length = k + 2 := by
      refine ⟨(H1 ++ B1 ++ (H2 ++ B2)).length - 2, ?_⟩
      simp only [List.length_append]
      omega
    unfold generate
    simp only [hk]
    rw [← hassoc, generateLoop_cons mkHeader (k + 1) (H2 ++ B2) hwf1.header hd1]
    have hd2 := hwf2.declared (B2 ++ [])
    have h2 : H2 ++ B2 = H2 ++ (B2 ++ []) := by simp
    rw [h2, generateLoop_cons mkHeader k [] hwf2.header hd2, generateLoop_nil]
  rw [hstep]
  refine ⟨rfl, by simp [hf], ?_, hgen, ?_⟩
  · simp [read, canReadRequest, hf]
  · simp [read, canReadRequest, hf, Idle, generate]

/-- Claim C6 at a concrete input: a request without body followed by a request with five
body bytes, in one chunk. -/
theorem pipelined_pair_witness :
    (read parseHeader (waitForReadyReadRequest parseHeader ⟨true, true⟩ 0 (THttpSocket.fresh 0)
        (getHeader ++ [] ++ (postHeader ++ bytes "hello"))).1).1
      = (generate parseHeader (getHeader ++ [] ++ (postHeader ++ bytes "hello"))).1
    ∧ (generate parseHeader (getHeader ++ [] ++ (postHeader ++ bytes "hello"))).1
      = [THttpRequest.fromMemory getHeader [], THttpRequest.fromMemory postHeader (bytes "hello")] :=
  ⟨(pipelined_pair parseHeader ⟨true, true⟩ 0 getHeader [] [] postHeader (bytes "hello") []
      (THttpSocket.fresh 0)
      ⟨by decide, fun X => by rw [parseHeader_append (by decide) X]; decide⟩
      ⟨by decide, fun X => by rw [parseHeader_append (by decide) X]; decide⟩
      (by decide) (passesLimit_zero _) (by decide)).2.2.1,
   (pipelined_pair parseHeader ⟨true, true⟩ 0 getHeader [] [] postHeader (bytes "hello") []
      (THttpSocket.fresh 0)
      ⟨by decide, fun X => by rw [parseHeader_append (by decide) X]; decide⟩
      ⟨by decide, fun X => by rw [parseHeader_append (by decide) X]; decide⟩
      (by decide) (passesLimit_zero _) (by decide)).2.2.2.1⟩

/-! ## C7: registry saturation -/

theorem ctorPass_full (r : Registry) (this : Conn)
    (hfull : ∀ i, i < SLOT_COUNT → r.socketManager i ≠ none) (hpoint : r.point < SLOT_COUNT) :
    ctorPass r this = (none, { r with point := (r.point + 1) % SLOT_COUNT }) := by
  have h := hfull r.point hpoint
  simp [ctorPass, Registry.fetchAdd, Registry.compareExchange, h]

theorem ctorLoop_full (this : Conn) : ∀ (fuel : Nat) (r : Registry),
    (∀ i, i < SLOT_COUNT → r.socketManager i ≠ none) → r.point < SLOT_COUNT →
    ctorLoop fuel r this = CtorResult.looping { r with point := (r.point + fuel) % SLOT_COUNT } := by
  intro fuel
  induction fuel with
  | zero =>
    intro r _ hp
    simp [ctorLoop, Nat.mod_eq_of_lt hp]
  | succ n ih =>
    intro r hfull hp
    rw [ctorLoop, ctorPass_full r this hfull hp]
    simp only
    have hlt : (r.point + 1) % SLOT_COUNT < SLOT_COUNT := Nat.mod_lt _ (by decide)
    rw [ih { r with point := (r.point + 1) % SLOT_COUNT } hfull hlt]
    simp only [CtorResult.looping.injEq, Registry.mk.injEq, true_and]
    unfold SLOT_COUNT
    omega

theorem ctorLoop_constructed (this : Conn) : ∀ (fuel : Nat) (r r1 : Registry) (sid : Nat),
    ctorLoop fuel r this = CtorResult.constructed sid r1 →
    r.socketManager sid = none ∧ r1.socketManager sid = some this
      ∧ ∀ i, i ≠ sid → r1.socketManager i = r.socketManager i := by
  intro fuel
  induction fuel with
  | zero => intro r r1 sid h; simp [ctorLoop] at h
  | succ n ih =>
    intro r r1 sid h
    rw [ctorLoop] at h
    by_cases hs : r.socketManager r.point = none
    · have hp : ctorPass r this
          = (some r.point, { socketManager := fun i => if i = r.point then some this
              else r.socketManager i, point := (r.point + 1) % SLOT_COUNT }) := by
        simp [ctorPass, Registry.fetchAdd, Registry.compareExchange, hs]
      rw [hp] at h
      simp only [CtorResult.constructed.injEq] at h
      obtain ⟨h1, h2⟩ := h
      subst h1
      subst h2
      refine ⟨hs, by simp, ?_⟩
      intro i hi
      simp [hi]
    · have hp : ctorPass r this = (none, { r with point := (r.point + 1) % SLOT_COUNT }) := by
        simp [ctorPass, Registry.fetchAdd, Registry.compareExchange, hs]
      rw [hp] at h
      simp only at h
      have := ih { r with point := (r.point + 1) % SLOT_COUNT } r1 sid h
      exact this

/-- Claim C7, refuted as stated: with every slot held (slot `i` by connection `i`), the
slot-claiming loop of the constructor of a further connection is still looping after any
number of passes; it has not terminated, neither with an id nor with a failure. -/
theorem saturated_ctor_never_terminates :
    (∀ i, i < SLOT_COUNT → fullRegistry.socketManager i ≠ none)
    ∧ ∀ fuel : Nat, ctorLoop fuel fullRegistry 70000
        = CtorResult.looping { fullRegistry with point := fuel % SLOT_COUNT } := by
  refine ⟨fun i _ => by simp [fullRegistry], ?_⟩
  intro fuel
  have := ctorLoop_full 70000 fuel fullRegistry (fun i _ => by simp [fullRegistry]) (by decide)
  simpa [fullRegistry] using this

/-- Claim C7, amended: when all 65536 slots are held and none is released, the next
acquisition never returns an id, hence never an id held by another connection; it has no
failure exit and retries without bound: after any number of passes the loop is still
running, the table unchanged and the cursor advanced by that number modulo 65536. Whenever
the loop does return an id, in any table, the slot of that id was empty before and no
other slot has changed. -/
theorem saturated_ctor_loops (r : Registry) (this : Conn)
    (hfull : ∀ i, i < SLOT_COUNT → r.socketManager i ≠ none) (hpoint : r.point < SLOT_COUNT) :
    (∀ fuel : Nat, ctorLoop fuel r this
        = CtorResult.looping { r with point := (r.point + fuel) % SLOT_COUNT })
    ∧ (∀ (fuel : Nat) (sid : Nat) (r1 : Registry),
        ctorLoop fuel r this ≠ CtorResult.constructed sid r1)
    ∧ (∀ (fuel : Nat) (r0 r1 : Registry) (sid : Nat),
        ctorLoop fuel r0 this = CtorResult.constructed sid r1 →
        r0.socketManager sid = none ∧ r1.socketManager sid = some this
          ∧ ∀ i, i ≠ sid → r1.socketManager i = r0.socketManager i) := by
  refine ⟨fun fuel => ctorLoop_full this fuel r hfull hpoint, ?_, ?_⟩
  · intro fuel sid r1 h
    rw [ctorLoop_full this fuel r hfull hpoint] at h
    cases h
  · intro fuel r0 r1 sid h
    exact ctorLoop_constructed this fuel r0 r1 sid h

/-- Claim C7, amended, at a concrete input: the full table, five passes. -/
theorem saturated_ctor_loops_witness :
    ctorLoop 5 fullRegistry 70000
      = CtorResult.looping { fullRegistry with point := (fullRegistry.point + 5) % SLOT_COUNT } :=
  (saturated_ctor_loops fullRegistry 70000 (fun i _ => by simp [fullRegistry])
    (by decide)).1 5

/-! ## C8: registry id uniqueness -/

theorem inv_init : World.init.Inv := by
  constructor <;> simp [World.init, Registry.empty, SLOT_COUNT]

theorem inv_ctorFetch (w : World) (c : Conn) (h : w.Inv) : (w.step (Event.ctorFetch c)).Inv := by
  have key : (w.life c = Life.absent ∨ w.life c = Life.fetching) →
      (World.mk w.registry.fetchAdd.2
        (fun x => if x = c then Life.swapping w.registry.fetchAdd.1 else w.life x)).Inv := by
    intro hc
    constructor
    · exact Nat.mod_lt _ (by decide)
    · intro c1 sid h1
      by_cases hx : c1 = c
      · simp [hx, Registry.fetchAdd] at h1
        rw [← h1]; exact h.point_lt
      · simp only [hx, if_false] at h1
        exact h.swapping_lt c1 sid h1
    · intro c1 sid h1
      by_cases hx : c1 = c
      · simp [hx] at h1
      · simp only [hx, if_false] at h1
        exact h.live_lt c1 sid h1
    · intro c1 sid h1
      by_cases hx : c1 = c
      · simp [hx] at h1
      · simp only [hx, if_false] at h1
        exact h.live_slot c1 sid h1
    · intro i c1 h1
      have h2 := h.slot_live i c1 h1
      by_cases hx : c1 = c
      · subst hx
        rcases hc with hc | hc <;> rw [hc] at h2 <;> cases h2
      · simp only [hx, if_false]
        exact h2
  unfold World.step
  cases hl : w.life c with
  | absent => simpa [hl] using key (Or.inl hl)
  | fetching => simpa [hl] using key (Or.inr hl)
  | swapping sid => simpa [hl] using h
  | live sid => simpa [hl] using h
  | released sid => simpa [hl] using h

theorem inv_ctorSwap (w : World) (c : Conn) (h : w.Inv) : (w.step (Event.ctorSwap c)).Inv := by
  unfold World.step
  cases hl : w.life c with
  | absent => simpa [hl] using h
  | fetching => simpa [hl] using h
  | live sid => simpa [hl] using h
  | released sid => simpa [hl] using h
  | swapping sid =>
    simp only [hl]
    by_cases hs : w.registry.socketManager sid = none
    · simp only [Registry.compareExchange, hs, if_true]
      constructor
      · exact h.point_lt
      · intro c1 s1 h1
        by_cases hx : c1 = c
        · simp [hx] at h1
        · simp only [hx, if_false] at h1
          exact h.swapping_lt c1 s1 h1
      · intro c1 s1 h1
        by_cases hx : c1 = c
        · simp [hx] at h1
          rw [← h1]; exact h.swapping_lt c sid hl
        · simp only [hx, if_false] at h1
          exact h.live_lt c1 s1 h1
      · intro c1 s1 h1
        by_cases hx : c1 = c
        · simp [hx] at h1
          simp [hx, h1]
        · simp only [hx, if_false] at h1
          have h2 := h.live_slot c1 s1 h1
          have hne : s1 ≠ sid := by
            intro he
            rw [he, hs] at h2
            cases h2
          simp [hne, h2]
      · intro i c1 h1
        by_cases hi : i = sid
        · simp [hi] at h1
          simp [h1, hi]
        · simp only [hi, if_false] at h1
          have h2 := h.slot_live i c1 h1
          have hx : c1 ≠ c := by
            intro he
            rw [he, hl] at h2
            cases h2
          simp [hx, h2]
    · simp only [Registry.compareExchange, hs, if_false]
      constructor
      · exact h.point_lt
      · intro c1 s1 h1
        by_cases hx : c1 = c
        · simp [hx] at h1
        · simp only [hx, if_false] at h1
          exact h.swapping_lt c1 s1 h1
      · intro c1 s1 h1
        by_cases hx : c1 = c
        · simp [hx] at h1
        · simp only [hx, if_false] at h1
          exact h.live_lt c1 s1 h1
      · intro c1 s1 h1
        by_cases hx : c1 = c
        · simp [hx] at h1
        · simp only [hx, if_false] at h1
          exact h.live_slot c1 s1 h1
      · intro i c1 h1
        have h2 := h.slot_live i c1 h1
        have hx : c1 ≠ c := by
          intro he
          rw [he, hl] at h2
          cases h2
        simp [hx, h2]

theorem inv_release (w : World) (c : Conn) (sid : Nat) (after : Life) (h : w.Inv)
    (hl : w.life c = Life.live sid ∨ w.life c = Life.released sid)
    (hafter : ∀ s, after ≠ Life.live s) (hsw : ∀ s, after ≠ Life.swapping s) :
    (World.mk
      (if w.registry.socketManager sid = some c then
        { w.registry with socketManager := fun i => if i = sid then none
            else w.registry.socketManager i }
      else w.registry)
      (fun y => if y = c then after else w.life y)).Inv := by
  have hslot : ∀ i, w.registry.socketManager i = some c → i = sid ∧ w.life c = Life.live sid := by
    intro i hi
    have h2 := h.slot_live i c hi
    rcases hl with hl | hl
    · rw [hl] at h2
      cases h2
      exact ⟨rfl, hl⟩
    · rw [hl] at h2
      cases h2
  constructor
  · split_ifs <;> exact h.point_lt
  · intro c1 s1 h1
    by_cases hx : c1 = c
    · simp [hx] at h1
      exact absurd h1 (hsw s1)
    · simp only [hx, if_false] at h1
      exact h.swapping_lt c1 s1 h1
  · intro c1 s1 h1
    by_cases hx : c1 = c
    · simp [hx] at h1
      exact absurd h1 (hafter s1)
    · simp only [hx, if_false] at h1
      exact h.live_lt c1 s1 h1
  · intro c1 s1 h1
    by_cases hx : c1 = c
    · simp [hx] at h1
      exact absurd h1 (hafter s1)
    · simp only [hx, if_false] at h1
      have h2 := h.live_slot c1 s1 h1
      split_ifs with hc
      · have hne : s1 ≠ sid := by
          intro he
          rw [he, hc] at h2
          exact hx (Option.some.inj h2).symm
        simp [hne, h2]
      · exact h2
  · intro i c1 h1
    have h3 : w.registry.socketManager i = some c1 ∧ c1 ≠ c := by
      split_ifs at h1 with hc
      · by_cases hi : i = sid
        · simp [hi] at h1
        · simp only [hi, if_false] at h1
          refine ⟨h1, ?_⟩
          intro he
          rw [he] at h1
          exact hi (hslot i h1).1
      · refine ⟨h1, ?_⟩
        intro he
        rw [he] at h1
        have := (hslot i h1).1
        rw [this] at h1
        exact hc h1
    simp only [h3.2, if_false]
    exact h.slot_live i c1 h3.1

theorem release_eq (r : Registry) (c : Conn) (sid : Nat) :
    deleteLater r c sid
        = (if r.socketManager sid = some c then
            { r with socketManager := fun i => if i = sid then none else r.socketManager i }
          else r)
    ∧ destructor r c sid
        = (if r.socketManager sid = some c then
            { r with socketManager := fun i => if i = sid then none else r.socketManager i }
          else r) := by
  constructor
  · unfold deleteLater Registry.compareExchange
    split_ifs <;> rfl
  · unfold destructor Registry.compareExchangeStrong
    split_ifs <;> rfl

theorem inv_deleteLater (w : World) (c : Conn) (h : w.Inv) :
    (w.step (Event.deleteLater c)).Inv := by
  unfold World.step
  cases hl : w.life c with
  | absent => simpa [hl] using h
  | fetching => simpa [hl] using h
  | swapping sid => simpa [hl] using h
  | live sid =>
    simp only [hl, (release_eq w.registry c sid).1]
    exact inv_release w c sid (Life.released sid) h (Or.inl hl) (by simp) (by simp)
  | released sid =>
    simp only [hl, (release_eq w.registry c sid).1]
    exact inv_release w c sid (Life.released sid) h (Or.inr hl) (by simp) (by simp)

theorem inv_destroy (w : World) (c : Conn) (h : w.Inv) : (w.step (Event.destroy c)).Inv := by
  unfold World.step
  cases hl : w.life c with
  | absent => simpa [hl] using h
  | fetching => simpa [hl] using h
  | swapping sid => simpa [hl] using h
  | live sid =>
    simp only [hl, (release_eq w.registry c sid).2]
    exact inv_release w c sid Life.absent h (Or.inl hl) (by simp) (by simp)
  | released sid =>
    simp only [hl, (release_eq w.registry c sid).2]
    exact inv_release w c sid Life.absent h (Or.inr hl) (by simp) (by simp)

theorem inv_step (w : World) (e : Event) (h : w.Inv) : (w.step e).Inv := by
  cases e with
  | ctorFetch c => exact inv_ctorFetch w c h
  | ctorSwap c => exact inv_ctorSwap w c h
  | deleteLater c => exact inv_deleteLater w c h
  | destroy c => exact inv_destroy w c h

theorem inv_run (events : List Event) : ∀ w : World, w.Inv → (w.run events).Inv := by
  induction events with
  | nil => intro w h; exact h
  | cons e es ih => intro w h; exact ih (w.step e) (inv_step w e h)

/-- Claim C8: in every state reached from the empty registry by any sequence of atomic
steps (the `fetch_add` and the exchange of a constructor, `deleteLater`, the destructor),
every connection `c` that is registered under the id `sid` (constructed and not yet
released) is held by the slot of that id; hence any connection registered under the same
id is `c` itself, the id lies in `0..65535`, and `searchSocket(sid)` returns `c`. -/
theorem registry_id_unique (events : List Event) (c : Conn) (sid : Nat)
    (hlive : (World.init.run events).life c = Life.live sid) :
    (World.init.run events).registry.socketManager sid = some c
    ∧ (∀ c1, (World.init.run events).life c1 = Life.live sid → c1 = c)
    ∧ sid < 65536
    ∧ searchSocket (World.init.run events).registry sid = some c := by
  have hinv := inv_run events World.init inv_init
  have hslot := hinv.live_slot c sid hlive
  have hlt : sid < 65536 := hinv.live_lt c sid hlive
  refine ⟨hslot, ?_, hlt, ?_⟩
  · intro c1 h1
    have := hinv.live_slot c1 sid h1
    rw [hslot] at this
    exact (Option.some.inj this).symm
  · have : ((sid : Int) % 65536).toNat = sid := by omega
    simp [searchSocket, this, hslot]

/-- Claim C8 at a concrete input: connection 7 is constructed, connection 8 is
constructed, 7 is released and destroyed, connection 9 is constructed. -/
theorem registry_id_unique_witness :
    searchSocket (World.init.run [Event.ctorFetch 7, Event.ctorFetch 8, Event.ctorSwap 8,
      Event.ctorSwap 7, Event.deleteLater 7, Event.destroy 7, Event.ctorFetch 9,
      Event.ctorSwap 9]).registry 1 = some 8 :=
  (registry_id_unique [Event.ctorFetch 7, Event.ctorFetch 8, Event.ctorSwap 8,
      Event.ctorSwap 7, Event.deleteLater 7, Event.destroy 7, Event.ctorFetch 9,
      Event.ctorSwap 9] 8 1 (by decide)).2.2.2

/-! ## C9: guarded release -/

/-- Claim C9: a release by the connection `c` with id `sid`, by `deleteLater` or by the
destructor, leaves every slot other than slot `sid` and the cursor unchanged, and empties
slot `sid` exactly when that slot held `c` before the step (otherwise the slot keeps its
value); in particular, in every state of the registry in which `c` has been released by
`deleteLater` and another connection `c1` is registered under the same id, the destructor
of `c` leaves `c1` registered in that slot. -/
theorem guarded_release (r : Registry) (c : Conn) (sid : Nat) :
    (∀ i, i ≠ sid → (deleteLater r c sid).socketManager i = r.socketManager i)
    ∧ (∀ i, i ≠ sid → (destructor r c sid).socketManager i = r.socketManager i)
    ∧ (deleteLater r c sid).point = r.point
    ∧ (destructor r c sid).point = r.point
    ∧ (deleteLater r c sid).socketManager sid
        = (if r.socketManager sid = some c then none else r.socketManager sid)
    ∧ (destructor r c sid).socketManager sid
        = (if r.socketManager sid = some c then none else r.socketManager sid)
    ∧ (∀ c1, c1 ≠ c → r.socketManager sid = some c1 →
        (deleteLater r c sid).socketManager sid = some c1
        ∧ (destructor r c sid).socketManager sid = some c1)
    ∧ (∀ (w : World) (c1 : Conn), w.Inv → w.life c = Life.released sid →
        w.life c1 = Life.live sid →
        (w.step (Event.destroy c)).registry.socketManager sid = some c1
        ∧ (w.step (Event.destroy c)).life c1 = Life.live sid
        ∧ searchSocket (w.step (Event.destroy c)).registry sid = some c1) := by
  obtain ⟨hd, hx⟩ := release_eq r c sid
  rw [hd, hx]
  refine ⟨?_, ?_, ?_, ?_, ?_, ?_, ?_, ?_⟩
  · intro i hi; split_ifs <;> simp [hi]
  · intro i hi; split_ifs <;> simp [hi]
  · split_ifs <;> rfl
  · split_ifs <;> rfl
  · split_ifs <;> simp
  · split_ifs <;> simp
  · intro c1 hne h1
    have hn : ¬ r.socketManager sid = some c := by
      rw [h1]
      intro h
      exact hne (Option.some.inj h)
    rw [if_neg hn]
    exact ⟨h1, h1⟩
  · intro w c1 hinv hrel hlive
    have hslot := hinv.live_slot c1 sid hlive
    have hlt : sid < 65536 := hinv.live_lt c1 sid hlive
    have hne : c1 ≠ c := by
      intro h
      rw [h, hrel] at hlive
      cases hlive
    have hn : ¬ w.registry.socketManager sid = some c := by
      rw [hslot]
      intro h
      exact hne (Option.some.inj h)
    have hmod : ((sid : Int) % 65536).toNat = sid := by omega
    simp [World.step, hrel, (release_eq w.registry c sid).2, hn, hslot, hne, hlive,
      searchSocket, hmod]

/-- Claim C9 at a concrete input: slot 0 was held by connection 7, which has been released
by `deleteLater`; connection 8 holds the slot now; the destructor of 7 leaves it there. -/
theorem guarded_release_witness :
    (destructor ⟨fun i => if i = 0 then some 8 else none, 1⟩ 7 0).socketManager 0 = some 8 :=
  ((guarded_release ⟨fun i => if i = 0 then some 8 else none, 1⟩ 7 0).2.2.2.2.2.2.1 8
    (by decide) rfl).2

/-! ## C10: write failures -/

theorem writeRawData_failed_poll (now : Int) (s : THttpSocket) (data : QByteArray) (size : Int)
    (p : SendPass) (rest : List SendPass) (hfd : s._socketDescriptor > 0) (hsize : size ≠ 0)
    (hpoll : p.pollResult ≤ 0) :
    writeRawData now s (some data) size (p :: rest)
      = some ⟨0, { abort s with _idleElapsed := now }, rest, [], []⟩ := by
  have h1 : ¬ s._socketDescriptor ≤ 0 := by omega
  simp [writeRawData, h1, hsize, writeLoop, hpoll]

theorem writeRawData_failed_send (now : Int) (s : THttpSocket) (data : QByteArray) (size : Int)
    (p : SendPass) (rest : List SendPass) (hfd : s._socketDescriptor > 0) (hsize : size ≠ 0)
    (hpoll : p.pollResult > 0) (hsend : p.written ≤ 0) :
    writeRawData now s (some data) size (p :: rest)
      = some ⟨-1, s, rest, [], [min (size - 0) WRITE_LENGTH]⟩ := by
  have h1 : ¬ s._socketDescriptor ≤ 0 := by omega
  have h2 : ¬ p.pollResult ≤ 0 := by omega
  simp [writeRawData, h1, hsize, writeLoop, h2, hsend]

/-- Claim C10, the code evaluated at failing inputs, on a connected socket (descriptor 5)
and ten bytes of data. A writability poll that is not ready makes `writeRawData` abort the
connection but return the count of bytes sent so far (0 before any send, 4 after a send of
four bytes), not -1. A send that returns -1 makes `writeRawData` return -1 but leaves the
connection open (descriptor still 5). `write` with no body returns the partial count of
the header write after a failed poll, and `write` with an in-memory body returns -1 after a
failed send without aborting the connection. -/
theorem write_failure_paths :
    (writeRawData 100 connectedSocket (some (bytes "0123456789")) 10 [⟨0, 0⟩]).map
        (fun r => (r.value, r.sock._socketDescriptor)) = some (0, 0)
    ∧ (writeRawData 100 connectedSocket (some (bytes "0123456789")) 10 [⟨1, 4⟩, ⟨0, 0⟩]).map
        (fun r => (r.value, r.sock._socketDescriptor, r.wire)) = some (4, 0, bytes "0123")
    ∧ (writeRawData 100 connectedSocket (some (bytes "0123456789")) 10 [⟨1, -1⟩]).map
        (fun r => (r.value, r.sock._socketDescriptor)) = some (-1, 5)
    ∧ (write 100 connectedSocket responseHeader none [⟨1, 4⟩, ⟨-1, 0⟩]).map
        (fun r => (r.value, r.sock._socketDescriptor)) = some (4, 0)
    ∧ (write 100 connectedSocket responseHeader
        (some (QIODevice.buffer true true (bytes "0123456789"))) [⟨1, 39⟩, ⟨1, 4⟩, ⟨1, 0⟩]).map
        (fun r => (r.value, r.sock._socketDescriptor)) = some (-1, 5) := by
  decide

/-! ## C11: successful writes -/

theorem writeLoop_runsWell (now : Int) (data : QByteArray) (size : Int) (s : THttpSocket)
    (hsize : size = data.length) :
    ∀ (script : List SendPass) (total : Int) (wire : QByteArray) (reqs : List Int),
      0 ≤ total → total < size → runsWell size total script = true →
      size - total ≤ script.length → wire = data.take total.toNat →
      (∀ q ∈ reqs, 1 ≤ q ∧ q ≤ WRITE_LENGTH) →
      ∃ r, writeLoop now data size script s total wire reqs = some r
        ∧ r.value = size ∧ r.sock = { s with _idleElapsed := now }
        ∧ r.rest = restAfterLoop size total script ∧ r.wire = data
        ∧ ∀ q ∈ r.requested, 1 ≤ q ∧ q ≤ WRITE_LENGTH := by
  intro script
  induction script with
  | nil =>
    intro total wire reqs _ hlt _ hlen _ _
    simp at hlen
    omega
  | cons p ps ih =>
    intro total wire reqs h0 hlt hrun hlen hwire hreqs
    simp only [runsWell, Bool.and_eq_true, Bool.or_eq_true, decide_eq_true_eq] at hrun
    obtain ⟨⟨⟨hpoll, hk1⟩, hk2⟩, hnext⟩ := hrun
    have hp : ¬ p.pollResult ≤ 0 := by omega
    have hw : ¬ p.written ≤ 0 := by omega
    have hWL : (1 : Int) ≤ WRITE_LENGTH := by decide
    have hreq : 1 ≤ min (size - total) WRITE_LENGTH ∧ min (size - total) WRITE_LENGTH ≤ WRITE_LENGTH := by
      constructor
      · exact le_min (by omega) hWL
      · exact min_le_right _ _
    have hkle : p.written ≤ size - total := le_trans hk2 (min_le_left _ _)
    have hreqs1 : ∀ q ∈ reqs ++ [min (size - total) WRITE_LENGTH], 1 ≤ q ∧ q ≤ WRITE_LENGTH := by
      intro q hq
      rcases List.mem_append.mp hq with hq | hq
      · exact hreqs q hq
      · simp only [List.mem_singleton] at hq
        rw [hq]; exact hreq
    have hwire1 : wire ++ (mid data total).take p.written.toNat
        = data.take (total + p.written).toNat := by
      have : (total + p.written).toNat = total.toNat + p.written.toNat := by omega
      rw [this, List.take_add, hwire, mid]
    unfold writeLoop
    simp only [hp, if_false, hw]
    by_cases hdone : total + p.written ≥ size
    · simp only [hdone, if_true]
      refine ⟨_, rfl, ?_, rfl, ?_, ?_, hreqs1⟩
      · show total + p.written = size
        omega
      · simp [restAfterLoop, hdone]
      · show wire ++ (mid data total).take p.written.toNat = data
        rw [hwire1]
        apply List.take_of_length_le
        omega
    · simp only [hdone, if_false]
      have hnext2 : runsWell size (total + p.written) ps = true := by
        rcases hnext with h | h
        · exact absurd h hdone
        · exact h
      have hlen2 : size - (total + p.written) ≤ ps.length := by
        simp only [List.length_cons, Nat.cast_add, Nat.cast_one] at hlen
        omega
      obtain ⟨r, hr, hv, hs, hrest, hwr, hrq⟩ :=
        ih (total + p.written) _ _ (by omega) (by omega) hnext2 hlen2 hwire1.symm.symm hreqs1
      refine ⟨r, hr, hv, hs, ?_, hwr, hrq⟩
      rw [hrest]
      simp [restAfterLoop, hdone]

theorem writeRawData_serves (now : Int) (s : THttpSocket) (data : QByteArray)
    (script : List SendPass) (hfd : s._socketDescriptor > 0)
    (hserve : servesWrite data.length script) :
    ∃ r, writeRawData now s (some data) data.length script = some r
      ∧ r.value = data.length ∧ r.sock._socketDescriptor = s._socketDescriptor
      ∧ r.rest = restAfterWrite data.length script ∧ r.wire = data
      ∧ ∀ q ∈ r.requested, 1 ≤ q ∧ q ≤ WRITE_LENGTH := by
  have h1 : ¬ s._socketDescriptor ≤ 0 := by omega
  by_cases hz : (data.length : Int) = 0
  · have hd : data = [] := List.eq_nil_of_length_eq_zero (by omega)
    refine ⟨⟨0, s, script, [], []⟩, ?_, ?_, rfl, ?_, ?_, ?_⟩
    · simp [writeRawData, h1, hz]
    · exact hz.symm
    · simp [restAfterWrite, hz]
    · exact hd.symm
    · intro q hq; simp at hq
  · rcases hserve with h | ⟨hrun, hlen⟩
    · exact absurd h hz
    · obtain ⟨r, hr, hv, hs, hrest, hwr, hrq⟩ :=
        writeLoop_runsWell now data data.length s rfl script 0 [] [] (le_refl _) (by omega) hrun
          (by omega) (by simp) (by intro q hq; simp at hq)
      refine ⟨r, ?_, hv, ?_, ?_, hwr, hrq⟩
      · simp [writeRawData, h1, hz, hr]
      · rw [hs]
      · simp [restAfterWrite, hz, hrest]

/-- Claim C11: on a connected socket (descriptor > 0), for data of length `size > 0` and
every script of operating-system answers in which each poll is ready and each send
reports `k` bytes with `1 ≤ k ≤` the length requested (and which holds at least `size`
passes), `writeRawData(data, size)` terminates: it returns `size`, has requested between 1
and 1408 bytes from each send, has put exactly the bytes of `data` on the wire in order,
leaves the connection open and stamps `_idleElapsed`. And `write(header, body)` with an
in-memory body (open, or opened successfully), served in the same way for the header and
then for the body, returns `len(serialized header) + len(body)` after putting the header
bytes followed by the body bytes on the wire. -/
theorem successful_write (now : Int) (s : THttpSocket) (data : QByteArray)
    (script : List SendPass) (hfd : s._socketDescriptor > 0) (hsize : 0 < data.length)
    (hrun : runsWell data.length 0 script = true) (hlen : data.length ≤ script.length) :
    (∃ r, writeRawData now s (some data) data.length script = some r
      ∧ r.value = data.length ∧ r.wire = data
      ∧ (∀ q ∈ r.requested, 1 ≤ q ∧ q ≤ 1408)
      ∧ r.sock = { s with _idleElapsed := now }
      ∧ r.rest = restAfterLoop data.length 0 script)
    ∧ (∀ (hdata body : QByteArray) (isOpen openOk : Bool) (script2 : List SendPass),
        (isOpen = true ∨ openOk = true) →
        servesWrite hdata.length script2 →
        servesWrite body.length (restAfterWrite hdata.length script2) →
        ∃ r, write now s hdata (some (QIODevice.buffer isOpen openOk body)) script2 = some r
          ∧ r.value = hdata.length + body.length ∧ r.wire = hdata ++ body
          ∧ (∀ q ∈ r.requested, 1 ≤ q ∧ q ≤ 1408)
          ∧ r.sock._socketDescriptor = s._socketDescriptor) := by
  constructor
  · have hne : (data.length : Int) ≠ 0 := by omega
    have h1 : ¬ s._socketDescriptor ≤ 0 := by omega
    obtain ⟨r, hr, hv, hs, hrest, hwr, hrq⟩ :=
      writeLoop_runsWell now data data.length s rfl script 0 [] [] (le_refl _) (by omega) hrun
        (by omega) (by simp) (by intro q hq; simp at hq)
    refine ⟨r, ?_, hv, hwr, hrq, hs, hrest⟩
    simp [writeRawData, h1, hne, hr]
  · intro hdata body isOpen openOk script2 hopen hserve1 hserve2
    obtain ⟨r1, hr1, hv1, hfd1, hrest1, hw1, hq1⟩ := writeRawData_serves now s hdata script2 hfd hserve1
    rw [← hrest1] at hserve2
    obtain ⟨r2, hr2, hv2, hfd2, _, hw2, hq2⟩ :=
      writeRawData_serves now r1.sock body r1.rest (by rw [hfd1]; exact hfd) hserve2
    have hof : (QIODevice.buffer isOpen openOk body).openFails = false := by
      rcases hopen with h | h <;> simp [QIODevice.openFails, h]
    have hnn : ¬ r1.value < 0 := by rw [hv1]; omega
    refine ⟨⟨r1.value + body.length, r2.sock, r2.rest, r1.wire ++ r2.wire,
      r1.requested ++ r2.requested⟩, ?_, ?_, ?_, ?_, ?_⟩
    · simp [write, hof, hr1, hnn, hr2, hv2]
    · show r1.value + (body.length : Int) = _
      rw [hv1]
    · show r1.wire ++ r2.wire = _
      rw [hw1, hw2]
    · intro q hq
      rcases List.mem_append.mp hq with h | h
      · exact hq1 q h
      · exact hq2 q h
    · show r2.sock._socketDescriptor = _
      rw [hfd2, hfd1]

/-- Claim C11 at a concrete input: ten bytes sent in passes of 4, 3 and 3 bytes, and a
response of a 39-byte header (sent in passes of 30 and 9) and a ten-byte body. -/
theorem successful_write_witness :
    (∃ r, writeRawData 100 connectedSocket (some (bytes "0123456789"))
        ((bytes "0123456789").length : Int)
        ([⟨1, 4⟩, ⟨1, 3⟩, ⟨1, 3⟩] ++ List.replicate 7 ⟨1, 1⟩) = some r
      ∧ r.value = ((bytes "0123456789").length : Int) ∧ r.wire = bytes "0123456789")
    ∧ (∃ r, write 100 connectedSocket responseHeader
        (some (QIODevice.buffer true true (bytes "0123456789")))
        ([⟨1, 30⟩, ⟨1, 9⟩, ⟨1, 4⟩, ⟨1, 6⟩] ++ List.replicate 46 ⟨1, 1⟩) = some r
      ∧ r.value = (responseHeader.length : Int) + ((bytes "0123456789").length : Int)
      ∧ r.wire = responseHeader ++ bytes "0123456789") := by
  have h := successful_write 100 connectedSocket (bytes "0123456789")
    ([⟨1, 4⟩, ⟨1, 3⟩, ⟨1, 3⟩] ++ List.replicate 7 ⟨1, 1⟩)
    (by decide) (by decide) (by decide) (by decide)
  constructor
  · obtain ⟨r, h1, h2, h3, _⟩ := h.1
    exact ⟨r, h1, h2, h3⟩
  · obtain ⟨r, h1, h2, h3, _⟩ := h.2 responseHeader (bytes "0123456789") true true
      ([⟨1, 30⟩, ⟨1, 9⟩, ⟨1, 4⟩, ⟨1, 6⟩] ++ List.replicate 46 ⟨1, 1⟩)
      (Or.inl rfl) (by decide) (by decide)
    exact ⟨r, h1, h2, h3⟩

/-! ## C12: header-only request -/

/-- Claim C12: a request that consists of a header block `H` (at least one byte, then the
delimiter, which does not occur earlier) and for which the declared Content-Length is
absent or 0 (the collaborator reports 0), fed as one chunk from the idle state, ends the
single feed with `_lengthToRead = 0`: the call returns true, the one value assigned to
`_lengthToRead` is 0 (no positive value in between), the read buffer holds `H`, and the
temporary file is neither opened nor written. This holds for every configured limit and
whatever the temporary-file operations would answer. -/
theorem header_only_request (mkHeader : HeaderCtor) (fs : FileSystem) (lim : Int)
    (s : THttpSocket) (H : QByteArray) (hs : Idle s) (hH : IsHeader H)
    (hL : (mkHeader H).contentLength = 0) :
    waitForReadyReadRequest mkHeader fs lim s H
        = ({ s with _readBuffer := H, _lengthToRead := 0 }, Outcome.returned true)
    ∧ canReadRequest (waitForReadyReadRequest mkHeader fs lim s H).1 = true
    ∧ (waitForReadyReadRequest mkHeader fs lim s H).1._lengthToRead = 0
    ∧ (waitForReadyReadRequest mkHeader fs lim s H).1._fileBuffer = ⟨false, []⟩ := by
  obtain ⟨hl, hb, hf⟩ := hs
  have h4 := hH.1
  have hne : H ≠ [] := by
    intro h
    rw [h] at h4
    simp at h4
  have hbuf : s._readBuffer ++ H = H ++ [] := by rw [hb]; simp
  have hL2 : (mkHeader (H ++ [])).contentLength = 0 := by simpa using hL
  have hnsp : ¬ usesSpillFile (mkHeader (H ++ [])) := by
    unfold usesSpillFile
    rw [hL2]
    simp [READ_THRESHOLD_LENGTH]
  have hstep := step_header mkHeader fs lim (by omega) hne hbuf hH
    (by rw [hL2]; unfold passesLimit; omega) (fun h => absurd h hnsp)
  rw [if_neg hnsp, hL2] at hstep
  simp only [List.append_nil, List.length_nil, Nat.cast_zero, sub_zero,
    max_self, le_refl, decide_True] at hstep
  rw [hstep]
  exact ⟨rfl, rfl, rfl, hf⟩

/-- Claim C12 at its witness, the chunk `GET / HTTP/1.1\r\nHost: x\r\n\r\n`. -/
theorem header_only_request_witness :
    waitForReadyReadRequest parseHeader ⟨true, true⟩ 0 (THttpSocket.fresh 0)
        (bytes "GET / HTTP/1.1\r\nHost: x\r\n\r\n")
      = ({ THttpSocket.fresh 0 with
            _readBuffer := bytes "GET / HTTP/1.1\r\nHost: x\r\n\r\n", _lengthToRead := 0 },
          Outcome.returned true) :=
  (header_only_request parseHeader ⟨true, true⟩ 0 (THttpSocket.fresh 0)
    (bytes "GET / HTTP/1.1\r\nHost: x\r\n\r\n") (by decide) (by decide) (by decide)).1

/-! ## C13: body-phase accounting -/

/-- Claim C13: in every state with `_lengthToRead = r > 0`, a feed of a non-empty chunk `c`
(the write to the temporary file succeeding when the file is open) appends exactly the
bytes of `c` to the temporary file if it is open, leaving the read buffer as it is, and
otherwise to the read buffer, leaving the file as it is; it sets `_lengthToRead` to
`r - min(r, len(c))`, which is never negative, and returns whether that value is 0. -/
theorem body_phase_accounting (mkHeader : HeaderCtor) (fs : FileSystem) (lim : Int)
    (s : THttpSocket) (c : QByteArray) (hpos : s._lengthToRead > 0) (hc : c ≠ [])
    (hwrite : s._fileBuffer.isOpen = true → fs.writeOk = true) :
    (s._fileBuffer.isOpen = true →
        (waitForReadyReadRequest mkHeader fs lim s c).1._fileBuffer
            = ⟨true, s._fileBuffer.data ++ c⟩
        ∧ (waitForReadyReadRequest mkHeader fs lim s c).1._readBuffer = s._readBuffer)
    ∧ (s._fileBuffer.isOpen = false →
        (waitForReadyReadRequest mkHeader fs lim s c).1._readBuffer = s._readBuffer ++ c
        ∧ (waitForReadyReadRequest mkHeader fs lim s c).1._fileBuffer = s._fileBuffer)
    ∧ (waitForReadyReadRequest mkHeader fs lim s c).1._lengthToRead
        = s._lengthToRead - min s._lengthToRead c.length
    ∧ 0 ≤ (waitForReadyReadRequest mkHeader fs lim s c).1._lengthToRead
    ∧ (waitForReadyReadRequest mkHeader fs lim s c).2
        = Outcome.returned (decide (s._lengthToRead ≤ c.length)) := by
  have hstep := step_body mkHeader fs lim hpos hc hwrite
  rw [hstep]
  have hmax : max (s._lengthToRead - (c.length : Int)) 0
      = s._lengthToRead - min s._lengthToRead c.length := by omega
  refine ⟨?_, ?_, ?_, ?_, rfl⟩
  · intro ho
    rw [if_pos ho]
    refine ⟨?_, rfl⟩
    simp [ho]
  · intro ho
    have hn : ¬ s._fileBuffer.isOpen = true := by simp [ho]
    rw [if_neg hn]
    exact ⟨rfl, rfl⟩
  · by_cases ho : s._fileBuffer.isOpen = true
    · rw [if_pos ho]; exact hmax
    · rw [if_neg ho]; exact hmax
  · by_cases ho : s._fileBuffer.isOpen = true
    · rw [if_pos ho]; exact le_max_right _ _
    · rw [if_neg ho]; exact le_max_right _ _

/-- Claim C13 at its witness: a header declaring Content-Length 10, then body chunks of 4
and 6 bytes: `_lengthToRead` goes 10, 6, 0 and the read buffer ends as the header block
followed by the ten body bytes in order. -/
theorem body_phase_accounting_witness :
    (feedAll parseHeader ⟨true, true⟩ 0 (THttpSocket.fresh 0) [tenHeader]).1._lengthToRead = 10
    ∧ (waitForReadyReadRequest parseHeader ⟨true, true⟩ 0
        (feedAll parseHeader ⟨true, true⟩ 0 (THttpSocket.fresh 0) [tenHeader]).1
        (bytes "0123")).1._lengthToRead
      = (feedAll parseHeader ⟨true, true⟩ 0 (THttpSocket.fresh 0) [tenHeader]).1._lengthToRead
        - min (feedAll parseHeader ⟨true, true⟩ 0 (THttpSocket.fresh 0) [tenHeader]).1._lengthToRead
            ((bytes "0123").length : Int)
    ∧ (feedAll parseHeader ⟨true, true⟩ 0 (THttpSocket.fresh 0)
        [tenHeader, bytes "0123"]).1._lengthToRead = 6
    ∧ (waitForReadyReadRequest parseHeader ⟨true, true⟩ 0
        (feedAll parseHeader ⟨true, true⟩ 0 (THttpSocket.fresh 0) [tenHeader, bytes "0123"]).1
        (bytes "456789")).1._readBuffer
      = (feedAll parseHeader ⟨true, true⟩ 0 (THttpSocket.fresh 0)
          [tenHeader, bytes "0123"]).1._readBuffer ++ bytes "456789"
    ∧ (feedAll parseHeader ⟨true, true⟩ 0 (THttpSocket.fresh 0)
        [tenHeader, bytes "0123", bytes "456789"]).1._lengthToRead = 0
    ∧ (feedAll parseHeader ⟨true, true⟩ 0 (THttpSocket.fresh 0)
        [tenHeader, bytes "0123", bytes "456789"]).1._readBuffer
      = tenHeader ++ bytes "0123456789" :=
  ⟨by decide,
   (body_phase_accounting parseHeader ⟨true, true⟩ 0
      (feedAll parseHeader ⟨true, true⟩ 0 (THttpSocket.fresh 0) [tenHeader]).1 (bytes "0123")
      (by decide) (by decide) (by decide)).2.2.1,
   by decide,
   ((body_phase_accounting parseHeader ⟨true, true⟩ 0
      (feedAll parseHeader ⟨true, true⟩ 0 (THttpSocket.fresh 0) [tenHeader, bytes "0123"]).1
      (bytes "456789") (by decide) (by decide) (by decide)).2.1 (by decide)).1,
   by decide, by decide⟩

/-! ## C14: header completion -/

/-- Claim C14, refuted as stated: the chunk `blankLineFirst` fed to a fresh socket gives a
buffer whose first delimiter is at offset 0; the declared length 0 passes the limit and the
claimed value `max(0 + 4 + 0 - len(buf), 0)` is 0, yet the feed leaves `_lengthToRead`
at -1 and returns false. -/
theorem delimiter_at_offset_zero_ignored :
    indexOf ((THttpSocket.fresh 0)._readBuffer ++ blankLineFirst) CRLFCRLF = 0
    ∧ passesLimit 0 (parseHeader blankLineFirst).contentLength
    ∧ max (0 + 4 + (parseHeader blankLineFirst).contentLength - (blankLineFirst.length : Int)) 0
        = 0
    ∧ waitForReadyReadRequest parseHeader ⟨true, true⟩ 0 (THttpSocket.fresh 0) blankLineFirst
        = ({ THttpSocket.fresh 0 with _readBuffer := blankLineFirst }, Outcome.returned false)
    ∧ (waitForReadyReadRequest parseHeader ⟨true, true⟩ 0 (THttpSocket.fresh 0)
        blankLineFirst).1._lengthToRead = -1 := by
  decide

/-- Claim C14, amended: for every feed of a non-empty chunk in AwaitingHeader, with `buf`
the read buffer after appending the chunk: if `buf` does not contain the delimiter, or
contains it first at offset 0, `_lengthToRead` keeps its value and the feed returns false;
if the first occurrence is at an offset `idx > 0` and the declared length `L` passes the
size limit, `_lengthToRead` becomes `max(idx + 4 + L - len(buf), 0)`, which is not
negative, so the state leaves AwaitingHeader (also when the feed then throws because the
temporary file cannot be opened or written). -/
theorem header_completion (mkHeader : HeaderCtor) (fs : FileSystem) (lim : Int)
    (s : THttpSocket) (c : QByteArray) (hneg : s._lengthToRead < 0) (hc : c ≠ []) :
    (indexOf (s._readBuffer ++ c) CRLFCRLF ≤ 0 →
        waitForReadyReadRequest mkHeader fs lim s c
          = ({ s with _readBuffer := s._readBuffer ++ c }, Outcome.returned false))
    ∧ (indexOf (s._readBuffer ++ c) CRLFCRLF > 0 →
        passesLimit lim (mkHeader (s._readBuffer ++ c)).contentLength →
        (waitForReadyReadRequest mkHeader fs lim s c).1._lengthToRead
            = max (indexOf (s._readBuffer ++ c) CRLFCRLF + 4
                + (mkHeader (s._readBuffer ++ c)).contentLength
                - ((s._readBuffer ++ c).length : Int)) 0
        ∧ 0 ≤ (waitForReadyReadRequest mkHeader fs lim s c).1._lengthToRead
        ∧ (waitForReadyReadRequest mkHeader fs lim s c).1._readBuffer = s._readBuffer ++ c) := by
  have h1 : ¬ s._lengthToRead > 0 := by omega
  have h0 : ¬ s._lengthToRead = 0 := by omega
  constructor
  · intro hidx
    have hn : ¬ indexOf (s._readBuffer ++ c) CRLFCRLF > 0 := by omega
    unfold waitForReadyReadRequest
    simp only [hc, ne_eq, not_false_eq_true, if_true, h1, if_false, hneg, hn]
    simp [canReadRequest, h0]
  · intro hidx hlim
    unfold passesLimit at hlim
    unfold waitForReadyReadRequest
    simp only [hc, ne_eq, not_false_eq_true, if_true, h1, if_false, hneg, hidx, hlim]
    split_ifs <;> exact ⟨rfl, le_max_right _ _, rfl⟩

/-- Claim C14, amended, at a concrete input: a header block declaring ten body bytes. -/
theorem header_completion_witness :
    (waitForReadyReadRequest parseHeader ⟨true, true⟩ 0 (THttpSocket.fresh 0)
        tenHeader).1._lengthToRead
      = max (indexOf ((THttpSocket.fresh 0)._readBuffer ++ tenHeader) CRLFCRLF + 4
          + (parseHeader ((THttpSocket.fresh 0)._readBuffer ++ tenHeader)).contentLength
          - (((THttpSocket.fresh 0)._readBuffer ++ tenHeader).length : Int)) 0 :=
  ((header_completion parseHeader ⟨true, true⟩ 0 (THttpSocket.fresh 0) tenHeader
    (by decide) (by decide)).2 (by decide) (by decide)).1

/-! ## C15: spill decision -/

/-- Claim C15, refuted as stated: the header block `emptyUploadHeader` is complete, passes
the limit, and declares the content type `multipart/form-data` with Content-Length 0; the
feed that completes it opens no temporary file. -/
theorem multipart_without_length_not_spilled :
    indexOf ((THttpSocket.fresh 0)._readBuffer ++ emptyUploadHeader) CRLFCRLF > 0
    ∧ (parseHeader emptyUploadHeader).contentLength = 0
    ∧ startsWith (trimmed (parseHeader emptyUploadHeader).contentType)
        (bytes "multipart/form-data") = true
    ∧ passesLimit 0 (parseHeader emptyUploadHeader).contentLength
    ∧ (waitForReadyReadRequest parseHeader ⟨true, true⟩ 0 (THttpSocket.fresh 0)
        emptyUploadHeader).1._fileBuffer.isOpen = false
    ∧ (waitForReadyReadRequest parseHeader ⟨true, true⟩ 0 (THttpSocket.fresh 0)
        emptyUploadHeader).2 = Outcome.returned true := by
  decide

/-- Claim C15, amended: for every feed that completes a header (first delimiter at an
offset `idx > 0`) and passes the size limit, with declared length `L` and content type
`T`, the temporary file being closed before and its opening succeeding, the file is open
after the feed if and only if `L` exceeds `READ_THRESHOLD_LENGTH` (2 MiB), or `L > 0` and
the trimmed `T` starts with `multipart/form-data`; a multipart header with `L = 0` opens
no file. -/
theorem spill_decision (mkHeader : HeaderCtor) (fs : FileSystem) (lim : Int)
    (s : THttpSocket) (c : QByteArray) (hneg : s._lengthToRead < 0) (hc : c ≠ [])
    (hidx : indexOf (s._readBuffer ++ c) CRLFCRLF > 0)
    (hlim : passesLimit lim (mkHeader (s._readBuffer ++ c)).contentLength)
    (hclosed : s._fileBuffer.isOpen = false) (hopen : fs.openOk = true) :
    (waitForReadyReadRequest mkHeader fs lim s c).1._fileBuffer.isOpen = true
      ↔ ((mkHeader (s._readBuffer ++ c)).contentLength > READ_THRESHOLD_LENGTH
          ∨ ((mkHeader (s._readBuffer ++ c)).contentLength > 0
              ∧ startsWith (trimmed (mkHeader (s._readBuffer ++ c)).contentType)
                  (bytes "multipart/form-data") = true)) := by
  have h1 : ¬ s._lengthToRead > 0 := by omega
  unfold passesLimit at hlim
  unfold waitForReadyReadRequest
  simp only [hc, ne_eq, not_false_eq_true, if_true, h1, if_false, hneg, hidx, hlim, hopen]
  by_cases hsp : (mkHeader (s._readBuffer ++ c)).contentLength > READ_THRESHOLD_LENGTH
      ∨ ((mkHeader (s._readBuffer ++ c)).contentLength > 0
          ∧ startsWith (trimmed (mkHeader (s._readBuffer ++ c)).contentType)
              (bytes "multipart/form-data") = true)
  · simp only [hsp, if_true, iff_true]
    split_ifs <;> rfl
  · simp only [hsp, if_false, iff_false]
    simp [hclosed]

/-- Claim C15, amended, at a concrete input: the multipart header declaring three bytes. -/
theorem spill_decision_witness :
    (waitForReadyReadRequest parseHeader ⟨true, true⟩ 0 (THttpSocket.fresh 0)
        uploadHeader).1._fileBuffer.isOpen = true :=
  (spill_decision parseHeader ⟨true, true⟩ 0 (THttpSocket.fresh 0) uploadHeader
    (by decide) (by decide) (by decide) (by decide) (by decide) (by decide)).mpr (by decide)

/-! ## C16: the record buffer on the spill path -/

theorem upToHeader_boundary (rest : List QByteArray) : ∀ (hs : List QByteArray) (H : QByteArray),
    hs.flatten = H → 0 < H.length → upToHeader H.length (hs ++ rest) = H := by
  intro hs
  induction hs with
  | nil =>
    intro H h hpos
    rw [← h] at hpos
    simp at hpos
  | cons c cs ih =>
    intro H h hpos
    rw [List.flatten_cons] at h
    have hlen : H.length = c.length + cs.flatten.length := by
      rw [← h, List.length_append]
    by_cases hle : H.length ≤ c.length
    · have hz : cs.flatten = [] := List.eq_nil_of_length_eq_zero (by omega)
      rw [hz, List.append_nil] at h
      have hcons : (c :: cs) ++ rest = c :: (cs ++ rest) := rfl
      rw [hcons]
      simp only [upToHeader, hle, if_true]
      exact h
    · have hrec := ih cs.flatten rfl (by omega)
      have hsub : H.length - c.length = cs.flatten.length := by omega
      have hcons : (c :: cs) ++ rest = c :: (cs ++ rest) := rfl
      rw [hcons]
      simp only [upToHeader, hle, if_false, hsub, hrec]
      exact h

/-- Claim C16, refuted as stated: the multipart request `uploadHeader ++ abc` uses the
temporary file; fed as the chunks `header ++ a` and `bc`, the byte array passed to the
record is the header block followed by the body byte `a`, not the header block alone, and
that byte is in the file as well: it was copied, not moved. -/
theorem spill_record_keeps_body_bytes :
    WellFormed parseHeader uploadHeader (bytes "abc") (bytes "multipart/form-data")
    ∧ usesSpillFile ⟨(bytes "abc").length, bytes "multipart/form-data"⟩
    ∧ IsChunking [uploadHeader ++ bytes "a", bytes "bc"] (uploadHeader ++ bytes "abc")
    ∧ (read parseHeader (feedAll parseHeader ⟨true, true⟩ 0 (THttpSocket.fresh 0)
          [uploadHeader ++ bytes "a", bytes "bc"]).1).1
        = [THttpRequest.fromFile (uploadHeader ++ bytes "a") (bytes "abc")]
    ∧ uploadHeader ++ bytes "a" ≠ uploadHeader := by
  refine ⟨⟨by decide, ?_⟩, by decide, by decide, by decide, by decide⟩
  intro X
  rw [parseHeader_append (by decide) X]
  decide

/-- Claim C16, amended: for every well-formed request `H ++ B` that uses the temporary
file (within the size limit, file operations succeeding) and every chunking of it, `read`
returns one record whose file contents are `B` and whose byte array is the chunks up to
and including the one that completes the header: the header bytes through the delimiter,
followed by those body bytes `X` that arrived in the same chunk. These bytes are a leading
part of `B`, so they are in the file too: they are copied, not moved. The byte array is
the header block alone exactly when `X` is empty, as it is when a chunk boundary falls
right after the delimiter. -/
theorem spill_record_buffer (mkHeader : HeaderCtor) (fs : FileSystem) (lim : Int)
    (H B T : QByteArray) (chunks : List QByteArray) (s : THttpSocket)
    (hwf : WellFormed mkHeader H B T) (hsp : usesSpillFile ⟨B.length, T⟩)
    (hlim : passesLimit lim B.length)
    (hopen : fs.openOk = true) (hwrite : fs.writeOk = true) (hs : Idle s)
    (hch : IsChunking chunks (H ++ B)) :
    ∃ X Y : QByteArray, X ++ Y = B
      ∧ (feedAll mkHeader fs lim s chunks).1._readBuffer = H ++ X
      ∧ (feedAll mkHeader fs lim s chunks).1._fileBuffer = ⟨true, X ++ Y⟩
      ∧ (read mkHeader (feedAll mkHeader fs lim s chunks).1).1
          = [THttpRequest.fromFile (H ++ X) (X ++ Y)]
      ∧ H ++ X = upToHeader H.length chunks
      ∧ ((feedAll mkHeader fs lim s chunks).1._readBuffer = H ↔ X = [])
      ∧ (∀ hs bs : List QByteArray, chunks = hs ++ bs → hs.flatten = H → X = []) := by
  have h4 := hwf.header.1
  obtain ⟨X, Y, hX, hY⟩ := upToHeader_prefix chunks H B (by omega) hch.2
  have hrun := feedAll_wellFormed hwf hlim hopen hwrite hs hch
  rw [if_pos hsp] at hrun
  refine ⟨X, Y, hY, ?_, ?_, ?_, hX.symm, ?_, ?_⟩
  · rw [hrun]; exact hX
  · rw [hrun, hY]
  · rw [hrun, hY, ← hX]
    simp [read, canReadRequest]
  · rw [hrun]
    simp only [hX]
    constructor
    · intro h
      have := congrArg List.length h
      simp only [List.length_append] at this
      exact List.eq_nil_of_length_eq_zero (by omega)
    · intro h
      rw [h, List.append_nil]
  · intro hs bs hsplit hflat
    have hb := upToHeader_boundary bs hs H hflat (by omega)
    rw [← hsplit, hX] at hb
    have := congrArg List.length hb
    simp only [List.length_append] at this
    exact List.eq_nil_of_length_eq_zero (by omega)

/-- Claim C16, amended, at a concrete input: the multipart request fed as `header ++ a`,
then `bc`. -/
theorem spill_record_buffer_witness :
    ∃ X Y : QByteArray, X ++ Y = bytes "abc"
      ∧ (feedAll parseHeader ⟨true, true⟩ 0 (THttpSocket.fresh 0)
          [uploadHeader ++ bytes "a", bytes "bc"]).1._readBuffer = uploadHeader ++ X
      ∧ (feedAll parseHeader ⟨true, true⟩ 0 (THttpSocket.fresh 0)
          [uploadHeader ++ bytes "a", bytes "bc"]).1._fileBuffer = ⟨true, X ++ Y⟩ := by
  obtain ⟨X, Y, h1, h2, h3, _⟩ :=
    spill_record_buffer parseHeader ⟨true, true⟩ 0 uploadHeader (bytes "abc")
      (bytes "multipart/form-data") [uploadHeader ++ bytes "a", bytes "bc"] (THttpSocket.fresh 0)
      ⟨by decide, fun X => by rw [parseHeader_append (by decide) X]; decide⟩
      (by decide) (passesLimit_zero _) rfl rfl (by decide) (by decide)
  exact ⟨X, Y, h1, h2, h3⟩

/-! ## C17: would-block in readRawData -/

theorem recvLoop_wouldBlock_not_ready (msecs startidle : Int) (p : RecvPass)
    (ps : List RecvPass) (s : THttpSocket) (total timeout : Int) (buffer : QByteArray)
    (calls : Nat) (polls : List Int) (hlen : p.len < 0) (herr : p.error = EAGAIN)
    (hearly : p.now - startidle < msecs) (hpoll : p.pollResult ≤ 0) :
    recvLoop msecs startidle (p :: ps) s total timeout buffer calls polls
      = some ⟨buffer, s, ps, calls + 1, polls ++ [timeout]⟩ := by
  have h : ¬ p.pollResult > 0 := by omega
  simp [recvLoop, hlen, herr, hearly, h]

theorem recvLoop_wouldBlock_ready (msecs startidle : Int) (p : RecvPass)
    (ps : List RecvPass) (s : THttpSocket) (total timeout : Int) (buffer : QByteArray)
    (calls : Nat) (polls : List Int) (hlen : p.len < 0) (herr : p.error = EAGAIN)
    (hearly : p.now - startidle < msecs) (hpoll : p.pollResult > 0) :
    recvLoop msecs startidle (p :: ps) s total timeout buffer calls polls
      = recvLoop msecs startidle ps s total timeout buffer (calls + 1) (polls ++ [timeout]) := by
  simp [recvLoop, hlen, herr, hearly, hpoll]

/-- Claim C17, the code evaluated at a failing input: `readRawData(5000)` on a connected
socket, the initial poll ready, the clock at 1000. The first `tf_recv` reports would-block
10 ms later, well before the deadline; the loop condition then polls with timeout 0 and is
told that nothing is readable. The call returns the empty byte array after that single
`tf_recv`, the data that a second `tf_recv` would have delivered 20 ms later unread. When
instead the zero-timeout poll reports readiness, the second `tf_recv` is made. -/
theorem would_block_ends_read_early :
    readRawData 5000 connectedSocket 1 1000
        [⟨-1, EAGAIN, [], 1010, 1010, 0⟩, ⟨5, 0, bytes "hello", 1030, 1030, 0⟩]
      = some ⟨[], connectedSocket, [⟨5, 0, bytes "hello", 1030, 1030, 0⟩], 1, [0]⟩
    ∧ (1010 : Int) - 1000 < 5000
    ∧ readRawData 5000 connectedSocket 1 1000
        [⟨-1, EAGAIN, [], 1010, 1010, 1⟩, ⟨5, 0, bytes "hello", 1030, 1030, 0⟩]
      = some ⟨bytes "hello", { connectedSocket with _idleElapsed := 1030 }, [], 2, [0]⟩ := by
  decide

/-! ## C18: bytes fed in RequestReady -/

/-- Claim C18: in every state with `_lengthToRead = 0`, `waitForReadyReadRequest` called
with any chunk (in particular a non-empty one) leaves the socket exactly as it was, so the
read buffer, the temporary file and `_lengthToRead` are unchanged, and returns true; the
bytes of the chunk are stored nowhere: `read` and every later run of feeds give the same
result as if the chunk had never been fed. -/
theorem ready_state_drops_bytes (mkHeader : HeaderCtor) (fs : FileSystem) (lim : Int)
    (s : THttpSocket) (c : QByteArray) (hready : s._lengthToRead = 0) :
    waitForReadyReadRequest mkHeader fs lim s c = (s, Outcome.returned true)
    ∧ (waitForReadyReadRequest mkHeader fs lim s c).1._readBuffer = s._readBuffer
    ∧ (waitForReadyReadRequest mkHeader fs lim s c).1._fileBuffer = s._fileBuffer
    ∧ (waitForReadyReadRequest mkHeader fs lim s c).1._lengthToRead = 0
    ∧ read mkHeader (waitForReadyReadRequest mkHeader fs lim s c).1 = read mkHeader s
    ∧ ∀ later : List QByteArray,
        feedAll mkHeader fs lim (waitForReadyReadRequest mkHeader fs lim s c).1 later
          = feedAll mkHeader fs lim s later := by
  have h : waitForReadyReadRequest mkHeader fs lim s c = (s, Outcome.returned true) := by
    unfold waitForReadyReadRequest
    by_cases hc : c = []
    · simp [hc, canReadRequest, hready]
    · simp [hc, canReadRequest, hready]
  rw [h]
  exact ⟨rfl, rfl, rfl, hready, rfl, fun _ => rfl⟩

/-- Claim C18 at a concrete input: a complete request is buffered, a further chunk arrives
before `read`. -/
theorem ready_state_drops_bytes_witness :
    read parseHeader (waitForReadyReadRequest parseHeader ⟨true, true⟩ 0
        (feedAll parseHeader ⟨true, true⟩ 0 (THttpSocket.fresh 0) [getHeader]).1 postHeader).1
      = read parseHeader
          (feedAll parseHeader ⟨true, true⟩ 0 (THttpSocket.fresh 0) [getHeader]).1 :=
  (ready_state_drops_bytes parseHeader ⟨true, true⟩ 0
    (feedAll parseHeader ⟨true, true⟩ 0 (THttpSocket.fresh 0) [getHeader]).1 postHeader
    (by decide)).2.2.2.2.1

end THttp
